import Mathlib

/-!
Verification of the Medical-Timeline-Analysis extractor (src/app.py).

The development shallowly embeds the extractor: Python strings become
`List Char` / `String`, `datetime.date` becomes the `Date` structure over
unbounded integers (proleptic Gregorian, the calendar Python's `datetime`
uses; Python's year range 1..9999 and `timedelta` bounds are modelled only
where `datetime(...)` construction itself validates its arguments, in
`mkDate?`), regular-expression scanning becomes a small backtracking
matcher with Python semantics (leftmost match, left-biased alternation,
greedy quantifiers, word boundaries), and every fallible operation returns
`Option`, mirroring the source's catch-and-return-None error handling.
All characters of interest are ASCII, so ASCII case folding and ASCII
character classes model Python's `str.lower`, `\d`, `\s` and `\w`.
-/

namespace MedTimeline

/-! ## Character classes and basic string utilities -/

/-- ASCII whitespace, the characters matched by the regex class `\s`
(and stripped by `str.strip`) on the ASCII inputs in scope. -/
def isSpaceChar (c : Char) : Bool :=
  c = ' ' || c = '\t' || c = '\n' || c = '\r' || c = '\x0b' || c = '\x0c'

/-- The regex class `\d` (ASCII). -/
def isDigitChar (c : Char) : Bool :=
  '0' ≤ c && c ≤ '9'

/-- The regex class `[a-zA-Z]`. -/
def isAlphaChar (c : Char) : Bool :=
  ('a' ≤ c && c ≤ 'z') || ('A' ≤ c && c ≤ 'Z')

/-- Word characters for `\b` word boundaries (`\w`, ASCII). -/
def isWordChar (c : Char) : Bool :=
  isAlphaChar c || isDigitChar c || c = '_'

/-- `str.lower` on a character list (ASCII case folding). -/
def lowerChars (l : List Char) : List Char :=
  l.map Char.toLower

/-- Python's substring test `needle in haystack`, scanning left to right. -/
def containsSub : List Char → List Char → Bool
  | [], n => n.isEmpty
  | h :: t, n => n.isPrefixOf (h :: t) || containsSub t n

/-- `str.strip()`: drop leading and trailing whitespace. -/
def stripChars (l : List Char) : List Char :=
  ((l.dropWhile isSpaceChar).reverse.dropWhile isSpaceChar).reverse

mutual

/-- `re.sub(r'\s+', ' ', s)`: collapse every whitespace run to one space. -/
def collapseWs : List Char → List Char
  | [] => []
  | c :: cs =>
    if isSpaceChar c then ' ' :: collapseWsSkip cs else c :: collapseWs cs

/-- Skip the rest of the current whitespace run. -/
def collapseWsSkip : List Char → List Char
  | [] => []
  | c :: cs => if isSpaceChar c then collapseWsSkip cs else c :: collapseWs cs

end

/-- One deletion pass of `s.replace(old, '')`: the fuel only bounds the
recursion depth; every step consumes at least one character of `s`, so
`s.length` steps always suffice. -/
def pyReplaceDelGo (t : List Char) : List Char → Nat → List Char
  | s, 0 => s
  | [], _ => []
  | c :: cs, fuel + 1 =>
    if !t.isEmpty && t.isPrefixOf (c :: cs) then
      pyReplaceDelGo t ((c :: cs).drop t.length) fuel
    else c :: pyReplaceDelGo t cs fuel

/-- Python `s.replace(old, '')`: delete every non-overlapping occurrence of
`t`, scanning left to right and resuming after each deletion. -/
def pyReplaceDel (t s : List Char) : List Char :=
  pyReplaceDelGo t s s.length

/-- Numeric value of a decimal digit string (Python `int`). -/
def digitsToNat (l : List Char) : Nat :=
  l.foldl (fun a c => 10 * a + (c.toNat - '0'.toNat)) 0

/-! ## Calendar dates

`Date` is a plain year/month/day record.  The year is an unbounded integer:
the arithmetic below is uniform in the year, and Python's 1..9999 `datetime`
range is enforced exactly where `datetime(...)` validates its arguments
(`mkDate?`). -/

structure Date where
  year : Int
  month : Nat
  day : Nat
deriving DecidableEq, Repr

/-- Gregorian leap-year rule (`calendar.isleap` / `datetime`). -/
def isLeap (y : Int) : Bool :=
  y % 4 = 0 && (y % 100 ≠ 0 || y % 400 = 0)

/-- Length of a month (`calendar.monthrange(y, m)[1]`). -/
def daysInMonth (y : Int) (m : Nat) : Nat :=
  if m = 2 then (if isLeap y then 29 else 28)
  else if m = 4 || m = 6 || m = 9 || m = 11 then 30
  else 31

/-- A calendar date representable as a Python `datetime.date`
(`MINYEAR = 1`, `MAXYEAR = 9999`). -/
def validDate (d : Date) : Prop :=
  1 ≤ d.year ∧ d.year ≤ 9999 ∧
  1 ≤ d.month ∧ d.month ≤ 12 ∧ 1 ≤ d.day ∧ d.day ≤ daysInMonth d.year d.month

instance (d : Date) : Decidable (validDate d) := by
  unfold validDate; infer_instance

/-- `datetime(year, month, day).date()`: validates ranges (including
Python's MINYEAR..MAXYEAR) and returns `none` where `datetime` raises
`ValueError`. -/
def mkDate? (y : Int) (m : Nat) (d : Nat) : Option Date :=
  if 1 ≤ y && y ≤ 9999 && 1 ≤ m && m ≤ 12 && 1 ≤ d && d ≤ daysInMonth y m then
    some ⟨y, m, d⟩
  else none

/-- Day number of a civil date (days since 1970-01-01, proleptic Gregorian;
the standard `days_from_civil` computation, matching `datetime.toordinal`
up to a constant shift). -/
def toDayNumber (d : Date) : Int :=
  let y : Int := if d.month ≤ 2 then d.year - 1 else d.year
  let era : Int := y.fdiv 400
  let yoe : Int := y - era * 400
  let mp : Int := if d.month > 2 then (d.month : Int) - 3 else (d.month : Int) + 9
  let doy : Int := (153 * mp + 2).fdiv 5 + (d.day : Int) - 1
  let doe : Int := yoe * 365 + yoe.fdiv 4 - yoe.fdiv 100 + doy
  era * 146097 + doe - 719468

/-- Civil date of a day number (inverse of `toDayNumber`). -/
def ofDayNumber (z0 : Int) : Date :=
  let z : Int := z0 + 719468
  let era : Int := z.fdiv 146097
  let doe : Int := z - era * 146097
  let yoe : Int := (doe - doe.fdiv 1460 + doe.fdiv 36524 - doe.fdiv 146096).fdiv 365
  let y : Int := yoe + era * 400
  let doy : Int := doe - (365 * yoe + yoe.fdiv 4 - yoe.fdiv 100)
  let mp : Int := (5 * doy + 2).fdiv 153
  let d : Int := doy - (153 * mp + 2).fdiv 5 + 1
  let m : Int := if mp < 10 then mp + 3 else mp - 9
  ⟨if m ≤ 2 then y + 1 else y, m.toNat, d.toNat⟩

/-- `date ± timedelta(days=n)`: Python raises `OverflowError` when the
result would leave the range 0001-01-01 .. 9999-12-31 (every caller in the
source catches the exception and returns `None`, so the failure is modelled
as `none`).  A `timedelta` whose day count exceeds `timedelta.max` also
raises, but only when the shifted day number is already out of range, so
the single range check below captures both failure modes. -/
def addDays (d : Date) (n : Int) : Option Date :=
  let z := toDayNumber d + n
  if toDayNumber ⟨1, 1, 1⟩ ≤ z ∧ z ≤ toDayNumber ⟨9999, 12, 31⟩ then
    some (ofDayNumber z)
  else none

/-! ## Month arithmetic (`_add_months`, src/app.py lines 255-274) -/

/-- Iterations of `while month > 12: month -= 12; year += 1`; the fuel
only bounds the loop count and is chosen large enough below. -/
def fixMonthHighGo : Int → Int → Nat → Int × Int
  | y, m, 0 => (y, m)
  | y, m, fuel + 1 => if m > 12 then fixMonthHighGo (y + 1) (m - 12) fuel else (y, m)

/-- `while month > 12: month -= 12; year += 1`. -/
def fixMonthHigh (y m : Int) : Int × Int :=
  fixMonthHighGo y m (m - 12).toNat

/-- Iterations of `while month < 1: month += 12; year -= 1`. -/
def fixMonthLowGo : Int → Int → Nat → Int × Int
  | y, m, 0 => (y, m)
  | y, m, fuel + 1 => if m < 1 then fixMonthLowGo (y - 1) (m + 12) fuel else (y, m)

/-- `while month < 1: month += 12; year -= 1`. -/
def fixMonthLow (y m : Int) : Int × Int :=
  fixMonthLowGo y m (1 - m).toNat

/-- `_add_months(date, months)`: shift by whole months with year
carry/borrow, then `try: datetime(year, month, date.day)`; on `ValueError`
retry with the day clamped to the month's last day.  Each `datetime`
constructor is `mkDate?`; when the carried year leaves 1..9999 both
attempts fail and the `ValueError` escapes `_add_months` (every caller
catches it and returns `None`), modelled as `none`. -/
def addMonths (d : Date) (months : Int) : Option Date :=
  let p := fixMonthHigh d.year ((d.month : Int) + months)
  let q := fixMonthLow p.1 p.2
  match mkDate? q.1 q.2.toNat d.day with
  | some r => some r
  | none => mkDate? q.1 q.2.toNat (min d.day (daysInMonth q.1 q.2.toNat))

/-! ## A small regular-expression engine

Exactly the constructs used by the pattern bank of
`_extract_dates_from_sentence`: case-insensitive literals, character
classes, concatenation, left-biased alternation, greedy `?`, greedy
counted/unbounded repetition of a character class, and `\b`.  The matcher
enumerates the final states of a match attempt in Python's backtracking
priority order (first alternative first, longest repetition first), so the
head of the list is the match Python's engine returns.  A state is the
pair (last consumed character, remaining input); the last character feeds
`\b` checks. -/

inductive RE where
  | lit (s : List Char)
  | cls (p : Char → Bool)
  | seq (a b : RE)
  | alt (a b : RE)
  | opt (a : RE)
  | rep (p : Char → Bool) (lo : Nat) (hi : Option Nat)
  | wb

/-- Match state: last consumed character (none at the start of the
string) and remaining input. -/
abbrev MState := Option Char × List Char

/-- Consume a case-insensitive literal (stored lowercase). -/
def consumeLit : List Char → Option Char → List Char → Option MState
  | [], prev, input => some (prev, input)
  | p :: ps, _, input =>
    match input with
    | [] => none
    | c :: cs => if c.toLower = p then consumeLit ps (some c) cs else none

/-- Is there a word boundary between the previous character and the next
input character? -/
def atBoundary (prev : Option Char) (next : Option Char) : Bool :=
  (match prev with | some c => isWordChar c | none => false) !=
  (match next with | some c => isWordChar c | none => false)

/-- States after consuming `0, 1, …, min (run length) hi` characters of
class `p`, in ascending order of consumed length. -/
def runStates (p : Char → Bool) : Option Char → List Char → Option Nat → List MState
  | prev, input, hi =>
    (prev, input) ::
      (match hi, input with
       | some 0, _ => []
       | _, [] => []
       | hi, c :: cs =>
         if p c then runStates p (some c) cs (hi.map (· - 1)) else [])

/-- All final states of a match attempt at the current position, in
backtracking priority order (the head is the match Python returns). -/
def reMatch : RE → Option Char → List Char → List MState
  | .lit s, prev, input => (consumeLit s prev input).toList
  | .cls p, _, input =>
    match input with
    | c :: cs => if p c then [(some c, cs)] else []
    | [] => []
  | .seq a b, prev, input =>
    (reMatch a prev input).flatMap (fun s => reMatch b s.1 s.2)
  | .alt a b, prev, input => reMatch a prev input ++ reMatch b prev input
  | .opt a, prev, input => reMatch a prev input ++ [(prev, input)]
  | .rep p lo hi, prev, input => ((runStates p prev input hi).drop lo).reverse
  | .wb, prev, input => if atBoundary prev input.head? then [(prev, input)] else []

/-- `re.finditer`: leftmost non-overlapping matches, scanning left to
right and resuming after each match; the matched texts keep the original
characters.  Every pattern in the bank consumes at least one character, so
the empty-match case (where Python would advance one position) cannot
record a match here.  `fuel` starts at `input.length + 1`, which bounds
the number of scanning steps. -/
def findIterGo (re : RE) : Option Char → List Char → Nat → List (List Char)
  | _, _, 0 => []
  | prev, input, fuel + 1 =>
    match (reMatch re prev input).head? with
    | some (p', rest) =>
      let len := input.length - rest.length
      if len = 0 then
        match input with
        | [] => []
        | c :: cs => findIterGo re (some c) cs fuel
      else (input.take len) :: findIterGo re p' rest fuel
    | none =>
      match input with
      | [] => []
      | c :: cs => findIterGo re (some c) cs fuel

/-- All matches of `re` in `s` (`re.finditer(pattern, s, re.IGNORECASE)`),
as matched substrings of `s`. -/
def findMatches (re : RE) (s : String) : List String :=
  (findIterGo re none s.data (s.data.length + 1)).map fun l => String.mk l

/-! ## The pattern bank (src/app.py lines 80-107) -/

/-- Sequence of regex parts. -/
def reSeqL (l : List RE) : RE :=
  l.foldr RE.seq (.lit [])

/-- Left-biased alternation of a nonempty list of parts (first listed is
tried first, as in Python). -/
def reAltL (a : RE) (rest : List RE) : RE :=
  match rest with
  | [] => a
  | b :: bs => .alt a (reAltL b bs)

/-- A case-insensitive literal from a string (given lowercase). -/
def reS (s : String) : RE := .lit s.data

/-- `\s+` -/
def spacePlus : RE := .rep isSpaceChar 1 none

/-- `\s*` -/
def spaceStar : RE := .rep isSpaceChar 0 none

/-- `\d+` -/
def digitPlus : RE := .rep isDigitChar 1 none

/-- `\d{1,2}` -/
def digit12 : RE := .rep isDigitChar 1 (some 2)

/-- `\d{4}` -/
def digit4 : RE := .rep isDigitChar 4 (some 4)

/-- `\d{2,4}` -/
def digit24 : RE := .rep isDigitChar 2 (some 4)

/-- The class matching a slash or a dash. -/
def slashDash : RE := .cls (fun c => c = '/' || c = '-')

/-- `(?:st|nd|rd|th)` -/
def ordinalSuffix : RE :=
  reAltL (reS "st") [reS "nd", reS "rd", reS "th"]

/-- `(?:January|February|…|December)` -/
def monthFullRE : RE :=
  reAltL (reS "january") [reS "february", reS "march", reS "april", reS "may",
    reS "june", reS "july", reS "august", reS "september", reS "october",
    reS "november", reS "december"]

/-- `(?:Jan|Feb|Mar|Apr|May|Jun|Jul|Aug|Sep|Oct|Nov|Dec)` -/
def monthAbbrRE : RE :=
  reAltL (reS "jan") [reS "feb", reS "mar", reS "apr", reS "may", reS "jun",
    reS "jul", reS "aug", reS "sep", reS "oct", reS "nov", reS "dec"]

/-- `(?:three|two|one|\d+)` -/
def numberRE : RE :=
  reAltL (reS "three") [reS "two", reS "one", digitPlus]

/-- `(?:weeks?|days?|months?|years?)` -/
def unitRE : RE :=
  reAltL (.seq (reS "week") (.opt (reS "s")))
    [.seq (reS "day") (.opt (reS "s")),
     .seq (reS "month") (.opt (reS "s")),
     .seq (reS "year") (.opt (reS "s"))]

/-- The nine absolute patterns, in source order. -/
def absolutePatterns : List RE :=
  [ -- \b\d{1,2}(?:st|nd|rd|th)\s+(?:of\s+)?(?:January|…)\s+\d{4}\b
    reSeqL [.wb, digit12, ordinalSuffix, spacePlus,
      .opt (.seq (reS "of") spacePlus), monthFullRE, spacePlus, digit4, .wb],
    -- \b(?:January|…)\s+\d{1,2}(?:,\s*|\s+)\d{4}\b
    reSeqL [.wb, monthFullRE, spacePlus, digit12,
      .alt (.seq (reS ",") spaceStar) spacePlus, digit4, .wb],
    -- \b(?:Jan|…)\s+\d{1,2}(?:,\s*|\s+)\d{4}\b
    reSeqL [.wb, monthAbbrRE, spacePlus, digit12,
      .alt (.seq (reS ",") spaceStar) spacePlus, digit4, .wb],
    -- \b\d{1,2}(?:st|nd|rd|th)?\s+(?:Jan|…)\s+\d{4}\b
    reSeqL [.wb, digit12, .opt ordinalSuffix, spacePlus, monthAbbrRE,
      spacePlus, digit4, .wb],
    -- \b\d{1,2}[/-]\d{1,2}[/-]\d{2,4}\b
    reSeqL [.wb, digit12, slashDash, digit12, slashDash, digit24, .wb],
    -- \b\d{4}[/-]\d{1,2}[/-]\d{1,2}\b
    reSeqL [.wb, digit4, slashDash, digit12, slashDash, digit12, .wb],
    reSeqL [.wb, reS "today", .wb],
    reSeqL [.wb, reS "yesterday", .wb],
    reSeqL [.wb, reS "tomorrow", .wb] ]

/-- The seven relative patterns, in source order. -/
def relativePatterns : List RE :=
  [ -- \b(?:three|two|one|\d+)\s+(?:weeks?|days?|months?|years?)\s+ago\b
    reSeqL [.wb, numberRE, spacePlus, unitRE, spacePlus, reS "ago", .wb],
    -- …\s+(?:prior|before|earlier)\b
    reSeqL [.wb, numberRE, spacePlus, unitRE, spacePlus,
      reAltL (reS "prior") [reS "before", reS "earlier"], .wb],
    -- \b(?:in|after)\s+(?:three|two|one|\d+)\s+(?:weeks?|…)\b
    reSeqL [.wb, .alt (reS "in") (reS "after"), spacePlus, numberRE,
      spacePlus, unitRE, .wb],
    -- \b(?:three|two|one|\d+)\s+(?:weeks?|…)\s+(?:from now|later)\b
    reSeqL [.wb, numberRE, spacePlus, unitRE, spacePlus,
      .alt (reS "from now") (reS "later"), .wb],
    -- \bafter\s+\d+\s+days?\b
    reSeqL [.wb, reS "after", spacePlus, digitPlus, spacePlus, reS "day",
      .opt (reS "s"), .wb],
    -- \b(?:last|next)\s+(?:week|month|year)\b
    reSeqL [.wb, .alt (reS "last") (reS "next"), spacePlus,
      reAltL (reS "week") [reS "month", reS "year"], .wb],
    -- \bfor\s+the\s+past\s+(?:three|two|one|\d+)\s+(?:weeks?|…)\b
    reSeqL [.wb, reS "for", spacePlus, reS "the", spacePlus, reS "past",
      spacePlus, numberRE, spacePlus, unitRE, .wb] ]

/-- All patterns with the confidence the extraction loop assigns
(`'high' if pattern in absolute_patterns else 'medium'`). -/
def allPatterns : List (RE × String) :=
  absolutePatterns.map (fun r => (r, "high")) ++
    relativePatterns.map (fun r => (r, "medium"))

/-! ## Anchored parsing for `_simple_date_parse` (src/app.py lines 125-195)

`_simple_date_parse` tries five `re.match` (start-anchored) formats in
order.  Each is a plain sequence, so it is transcribed as a hand-rolled
parser; the only backtracking a Python engine would perform is resolved
as follows.  A greedy `\d{1,2}` (resp. `\d{4}`, `\d{2,4}`) is always
followed by an element that rejects digits, so shorter backtracking
choices fail exactly when the greedy one does; a greedy `\s+` is always
followed by an element that rejects whitespace; the optional `(?:of\s+)?`
is tried with the group first and retried without it, as the engine
would. -/

/-- Consume an exact literal prefix (for patterns applied to lowercased
text). -/
def dropLit (s : String) (t : List Char) : Option (List Char) :=
  if s.data.isPrefixOf t then some (t.drop s.data.length) else none

/-- Consume a case-insensitive literal prefix (literal given lowercase). -/
def dropLitCI : List Char → List Char → Option (List Char)
  | [], t => some t
  | _ :: _, [] => none
  | p :: ps, c :: cs => if c.toLower = p then dropLitCI ps cs else none

/-- Consume `\s+` (maximal run; see the note above). -/
def takeSpaces1 (t : List Char) : Option (List Char) :=
  let r := t.takeWhile isSpaceChar
  if r.isEmpty then none else some (t.drop r.length)

/-- Consume a greedy `\d{1,2}` group followed by a non-digit element. -/
def takeDigits12 (t : List Char) : Option (List Char × List Char) :=
  let ds := t.takeWhile isDigitChar
  if ds.isEmpty || ds.length > 2 then none else some (ds, t.drop ds.length)

/-- Consume a greedy `\d{4}` group (exactly four digits). -/
def takeDigits4 (t : List Char) : Option (List Char × List Char) :=
  let ds := t.takeWhile isDigitChar
  if ds.length < 4 then none else some (ds.take 4, t.drop 4)

/-- Consume a greedy `\d{2,4}` group with nothing required after it. -/
def takeDigits24 (t : List Char) : Option (List Char × List Char) :=
  let ds := t.takeWhile isDigitChar
  if ds.length < 2 then none
  else some (ds.take (min 4 ds.length), t.drop (min 4 ds.length))

/-- Consume `(?:st|nd|rd|th)` case-insensitively. -/
def dropOrdinal (t : List Char) : Option (List Char) :=
  (dropLitCI "st".data t).orElse fun _ =>
    (dropLitCI "nd".data t).orElse fun _ =>
      (dropLitCI "rd".data t).orElse fun _ => dropLitCI "th".data t

/-- Consume a `[a-zA-Z]+` group. -/
def takeLetters (t : List Char) : Option (List Char × List Char) :=
  let ls := t.takeWhile isAlphaChar
  if ls.isEmpty then none else some (ls, t.drop ls.length)

/-- Consume a slash or dash. -/
def dropSlashDash (t : List Char) : Option (List Char) :=
  match t with
  | c :: cs => if c = '/' || c = '-' then some cs else none
  | [] => none

/-- Groups of format 1, `(\d{1,2})(?:st|nd|rd|th)\s+(?:of\s+)?([a-zA-Z]+)\s+(\d{4})`:
(day, month-name, year). -/
def parseOrdinalDMY (t : List Char) : Option (List Char × List Char × List Char) :=
  let tailAt : List Char → List Char → Option (List Char × List Char × List Char) := fun ds u => do
    let (ls, u1) ← takeLetters u
    let u2 ← takeSpaces1 u1
    let (ys, _) ← takeDigits4 u2
    some (ds, ls, ys)
  do
    let (ds, t1) ← takeDigits12 t
    let t2 ← dropOrdinal t1
    let t3 ← takeSpaces1 t2
    match (do
        let u ← dropLitCI "of".data t3
        let u1 ← takeSpaces1 u
        tailAt ds u1) with
    | some r => some r
    | none => tailAt ds t3

/-- Groups of format 2, `([a-zA-Z]+)\s+(\d{1,2})(?:,\s*|\s+)(\d{4})`:
(month-name, day, year). -/
def parseMonthDY (t : List Char) : Option (List Char × List Char × List Char) := do
  let (ls, t1) ← takeLetters t
  let t2 ← takeSpaces1 t1
  let (ds, t3) ← takeDigits12 t2
  let t4 ←
    match t3 with
    | ',' :: r => some (r.dropWhile isSpaceChar)
    | _ => takeSpaces1 t3
  let (ys, _) ← takeDigits4 t4
  some (ls, ds, ys)

/-- Groups of format 3, `(\d{1,2})(?:st|nd|rd|th)?\s+([a-zA-Z]+)\s+(\d{4})`:
(day, month-name, year). -/
def parseDayMonthY (t : List Char) : Option (List Char × List Char × List Char) := do
  let (ds, t1) ← takeDigits12 t
  let t2 := (dropOrdinal t1).getD t1
  let t3 ← takeSpaces1 t2
  let (ls, t4) ← takeLetters t3
  let t5 ← takeSpaces1 t4
  let (ys, _) ← takeDigits4 t5
  some (ds, ls, ys)

/-- Groups of format 4, `(\d{1,2}) sep (\d{1,2}) sep (\d{2,4})` where
`sep` is the slash-or-dash class: (month, day, year). -/
def parseNumericMDY (t : List Char) : Option (List Char × List Char × List Char) := do
  let (ms, t1) ← takeDigits12 t
  let t2 ← dropSlashDash t1
  let (ds, t3) ← takeDigits12 t2
  let t4 ← dropSlashDash t3
  let (ys, _) ← takeDigits24 t4
  some (ms, ds, ys)

/-- Groups of format 5, `(\d{4}) sep (\d{1,2}) sep (\d{1,2})` where
`sep` is the slash-or-dash class: (year, month, day). -/
def parseNumericYMD (t : List Char) : Option (List Char × List Char × List Char) := do
  let (ys, t1) ← takeDigits4 t
  let t2 ← dropSlashDash t1
  let (ms, t3) ← takeDigits12 t2
  let t4 ← dropSlashDash t3
  let (ds, _) ← takeDigits12 t4
  some (ys, ms, ds)

/-- The `month_names` dictionary. -/
def monthNames : List (String × Nat) :=
  [("jan", 1), ("january", 1), ("feb", 2), ("february", 2), ("mar", 3),
   ("march", 3), ("apr", 4), ("april", 4), ("may", 5), ("jun", 6),
   ("june", 6), ("jul", 7), ("july", 7), ("aug", 8), ("august", 8),
   ("sep", 9), ("september", 9), ("oct", 10), ("october", 10),
   ("nov", 11), ("november", 11), ("dec", 12), ("december", 12)]

/-- `month_names.get(month_str.lower())`. -/
def lookupMonth (ls : List Char) : Option Nat :=
  monthNames.lookup (String.mk (lowerChars ls))

/-- Formats 4 then 5 of `_simple_date_parse`.  A format whose regex
matches is final: an invalid date is `None`, with no fallthrough. -/
def simpleDateTryNumeric (t : List Char) : Option Date :=
  match parseNumericMDY t with
  | some (ms, ds, ys) =>
    let year0 := digitsToNat ys
    let year : Nat :=
      if year0 < 100 then (if year0 < 50 then 2000 + year0 else 1900 + year0)
      else year0
    mkDate? year (digitsToNat ms) (digitsToNat ds)
  | none =>
    match parseNumericYMD t with
    | some (ys, ms, ds) => mkDate? (digitsToNat ys) (digitsToNat ms) (digitsToNat ds)
    | none => none

/-- Format 3 of `_simple_date_parse`; an unknown month name falls through
to the numeric formats. -/
def simpleDateTryDayMonth (t : List Char) : Option Date :=
  match parseDayMonthY t with
  | some (ds, ls, ys) =>
    match lookupMonth ls with
    | some m => mkDate? (digitsToNat ys) m (digitsToNat ds)
    | none => simpleDateTryNumeric t
  | none => simpleDateTryNumeric t

/-- Format 2 of `_simple_date_parse`. -/
def simpleDateTryMonthD (t : List Char) : Option Date :=
  match parseMonthDY t with
  | some (ls, ds, ys) =>
    match lookupMonth ls with
    | some m => mkDate? (digitsToNat ys) m (digitsToNat ds)
    | none => simpleDateTryDayMonth t
  | none => simpleDateTryDayMonth t

/-- `_simple_date_parse` (src/app.py lines 125-195): collapse whitespace,
then try the five formats in order. -/
def simpleDateParse (s : String) : Option Date :=
  let t := collapseWs (stripChars s.data)
  match parseOrdinalDMY t with
  | some (ds, ls, ys) =>
    match lookupMonth ls with
    | some m => mkDate? (digitsToNat ys) m (digitsToNat ds)
    | none => simpleDateTryMonthD t
  | none => simpleDateTryMonthD t

/-! ## Relative-expression parsing (src/app.py lines 230-351) -/

/-- Backtracking candidates for the group `(three|two|one|\d+)` at the
current position, in Python priority order (word literals first, then the
greedy digit run, longest first).  The text is already lowercased. -/
def numCandidates (t : List Char) : List (List Char × List Char) :=
  ((dropLit "three" t).map (fun r => ("three".data, r))).toList ++
    ((dropLit "two" t).map (fun r => ("two".data, r))).toList ++
    ((dropLit "one" t).map (fun r => ("one".data, r))).toList ++
    (let ds := t.takeWhile isDigitChar
     (List.range ds.length).map fun i =>
       let k := ds.length - i
       (ds.take k, t.drop k))

/-- The group `(weeks?|days?|months?|years?)` at the current position:
alternatives in order, each with a greedy optional `s`; nothing is
required after the group.  Returns the matched unit text. -/
def unitAt (t : List Char) : Option (List Char × List Char) :=
  ["week", "day", "month", "year"].findSome? fun u =>
    match dropLit (u ++ "s") t with
    | some r => some ((u ++ "s").data, r)
    | none => (dropLit u t).map fun r => (u.data, r)

/-- `(three|two|one|\d+)\s+(weeks?|days?|months?|years?)` at the current
position: (number text, unit text). -/
def numberUnitAt (t : List Char) : Option (List Char × List Char) :=
  (numCandidates t).findSome? fun nr => do
    let r1 ← takeSpaces1 nr.2
    let (u, _) ← unitAt r1
    some (nr.1, u)

/-- `re.search` of the number-unit pattern: leftmost position wins. -/
def searchNumberUnit : List Char → Option (List Char × List Char)
  | [] => none
  | c :: cs =>
    match numberUnitAt (c :: cs) with
    | some r => some r
    | none => searchNumberUnit cs

/-- `for\s+the\s+past\s+(three|two|one|\d+)\s+(weeks?|days?|months?|years?)`
at the current position. -/
def forPastAt (t : List Char) : Option (List Char × List Char) := do
  let t1 ← dropLit "for" t
  let t2 ← takeSpaces1 t1
  let t3 ← dropLit "the" t2
  let t4 ← takeSpaces1 t3
  let t5 ← dropLit "past" t4
  let t6 ← takeSpaces1 t5
  numberUnitAt t6

/-- `re.search` of the for-the-past pattern. -/
def searchForPast : List Char → Option (List Char × List Char)
  | [] => none
  | c :: cs =>
    match forPastAt (c :: cs) with
    | some r => some r
    | none => searchForPast cs

/-- `number_map.get(number_text, int(number_text) if number_text.isdigit()
else 1)`. -/
def numberFromText (n : List Char) : Nat :=
  if n = "one".data then 1
  else if n = "two".data then 2
  else if n = "three".data then 3
  else if !n.isEmpty && n.all isDigitChar then digitsToNat n
  else 1

/-- `_parse_relative_past` (src/app.py lines 276-301). -/
def parseRelativePast (ref : Date) (dateText : String) : Option Date :=
  match searchNumberUnit (lowerChars dateText.data) with
  | none => none
  | some (n, u) =>
    let num := numberFromText n
    if containsSub u "day".data then addDays ref (-(num : Int))
    else if containsSub u "week".data then addDays ref (-(7 * num : Int))
    else if containsSub u "month".data then addMonths ref (-(num : Int))
    else if containsSub u "year".data then addMonths ref (-(num : Int) * 12)
    else none

/-- `_parse_relative_future` (src/app.py lines 303-325). -/
def parseRelativeFuture (ref : Date) (dateText : String) : Option Date :=
  match searchNumberUnit (lowerChars dateText.data) with
  | none => none
  | some (n, u) =>
    let num := numberFromText n
    if containsSub u "day".data then addDays ref (num : Int)
    else if containsSub u "week".data then addDays ref (7 * num : Int)
    else if containsSub u "month".data then addMonths ref (num : Int)
    else if containsSub u "year".data then addMonths ref ((num : Int) * 12)
    else none

/-- `_parse_past_duration` (src/app.py lines 230-253). -/
def parsePastDuration (ref : Date) (dateText : String) : Option Date :=
  match searchForPast (lowerChars dateText.data) with
  | none => none
  | some (n, u) =>
    let num := numberFromText n
    if containsSub u "day".data then addDays ref (-(num : Int))
    else if containsSub u "week".data then addDays ref (-(7 * num : Int))
    else if containsSub u "month".data then addMonths ref (-(num : Int))
    else if containsSub u "year".data then addMonths ref (-(num : Int) * 12)
    else none

/-- `_parse_last_time_reference` (src/app.py lines 327-338). -/
def parseLastTimeReference (ref : Date) (dateText : String) : Option Date :=
  let tl := lowerChars dateText.data
  if containsSub tl "week".data then addDays ref (-7)
  else if containsSub tl "month".data then addMonths ref (-1)
  else if containsSub tl "year".data then addMonths ref (-12)
  else none

/-- `_parse_next_time_reference` (src/app.py lines 340-351). -/
def parseNextTimeReference (ref : Date) (dateText : String) : Option Date :=
  let tl := lowerChars dateText.data
  if containsSub tl "week".data then addDays ref 7
  else if containsSub tl "month".data then addMonths ref 1
  else if containsSub tl "year".data then addMonths ref 12
  else none

/-- `_normalize_date` (src/app.py lines 197-228): dispatch on lexical cues
in the matched text; every branch returns, so the sequence of `if`s
behaves as one chain.  All failures are `none` (the source catches every
exception and returns `None`). -/
def normalizeDate (ref : Date) (dateText : String) : Option Date :=
  let tl := lowerChars dateText.data
  if containsSub tl "today".data then some ref
  else if containsSub tl "yesterday".data then addDays ref (-1)
  else if containsSub tl "tomorrow".data then addDays ref 1
  else if containsSub tl "for the past".data then parsePastDuration ref dateText
  else if containsSub tl "ago".data || containsSub tl "prior".data ||
      containsSub tl "before".data || containsSub tl "earlier".data then
    parseRelativePast ref dateText
  else if containsSub tl "from now".data || containsSub tl "later".data ||
      "in ".data.isPrefixOf tl || "after ".data.isPrefixOf tl then
    parseRelativeFuture ref dateText
  else if containsSub tl "last".data then parseLastTimeReference ref dateText
  else if containsSub tl "next".data then parseNextTimeReference ref dateText
  else simpleDateParse dateText

/-! ## Categorization, description cleanup, event assembly
(src/app.py lines 14-33, 35-74, 76-123, 353-379) -/

/-- Keywords of the category "Disease Onset/Progression". -/
def onsetKeywords : List String :=
  ["symptoms", "began", "started", "onset", "developed", "appeared",
   "worsened", "improved", "subsided", "resolved", "fever", "cough",
   "pain", "headache", "nausea", "fatigue", "weakness", "dizzy"]

/-- Keywords of the category "Treatment". -/
def treatmentKeywords : List String :=
  ["medication", "prescribed", "started", "completed", "treatment",
   "therapy", "surgery", "procedure", "dose", "mg", "administered",
   "antibiotic", "medicine", "drug", "injection", "infusion"]

/-- Keywords of the category "Appointment/Scheduling". -/
def appointmentKeywords : List String :=
  ["appointment", "visit", "scheduled", "follow-up", "consultation",
   "test", "exam", "x-ray", "scan", "lab", "blood work", "results"]

/-- Keywords of the category "Other Clinical Observations". -/
def otherKeywords : List String :=
  ["observed", "noted", "reports", "presents", "examination",
   "assessment", "diagnosis", "condition", "patient", "clinical"]

/-- The `medical_keywords` dictionary, in insertion order. -/
def medicalKeywords : List (String × List String) :=
  [("Disease Onset/Progression", onsetKeywords),
   ("Treatment", treatmentKeywords),
   ("Appointment/Scheduling", appointmentKeywords),
   ("Other Clinical Observations", otherKeywords)]

/-- Score of one category: the number of its keywords occurring as
substrings of the lowercased sentence. -/
def categoryScore (text : String) (keywords : List String) : Nat :=
  keywords.countP fun k => containsSub (lowerChars text.data) k.data

/-- Python's `max(items, key=lambda x: x[1])`: the first item with the
maximal second component (later items replace only on strictly greater). -/
def maxBySecond (x : String × Nat) (xs : List (String × Nat)) : String × Nat :=
  xs.foldl (fun best y => if y.2 > best.2 then y else best) x

/-- `_categorize_event` (src/app.py lines 353-365). -/
def categorizeEvent (text : String) : String :=
  let scores := medicalKeywords.map fun ck => (ck.1, categoryScore text ck.2)
  if scores.all (fun p => p.2 = 0) then "Other Clinical Observations"
  else
    match scores with
    | [] => "Other Clinical Observations"
    | s :: ss => (maxBySecond s ss).1

/-- `_clean_event_description` (src/app.py lines 367-371):
`sentence.replace(date_text, '').strip()`, collapse whitespace, fall back
to the sentence when the result is empty. -/
def cleanEventDescription (sentence dateText : String) : String :=
  let cleaned := collapseWs (stripChars (pyReplaceDel dateText.data sentence.data))
  if cleaned.isEmpty then sentence else String.mk cleaned

/-- The eleven `medical_indicators`. -/
def medicalIndicators : List String :=
  ["patient", "symptoms", "diagnosis", "treatment", "medication",
   "test", "exam", "results", "appointment", "visit", "prescribed"]

/-- `_has_medical_content` (src/app.py lines 373-379). -/
def hasMedicalContent (sentence : String) : Bool :=
  medicalIndicators.any fun ind => containsSub (lowerChars sentence.data) ind.data

/-- A successful date match: matched text, resolved date, confidence. -/
structure DateMatch where
  original_text : String
  normalized_date : Date
  confidence : String
deriving DecidableEq, Repr

/-- The body of the inner loop of `_extract_dates_from_sentence`: append
the match when normalization succeeds, drop it otherwise. -/
def keepMatch (ref : Date) (conf : String) (dates : List DateMatch) (m : String) :
    List DateMatch :=
  match normalizeDate ref m with
  | some d =>
    dates ++ [{ original_text := m, normalized_date := d, confidence := conf }]
  | none => dates

/-- `_extract_dates_from_sentence` (src/app.py lines 76-123): for every
pattern and every match, keep the match exactly when normalization
succeeds, appending in loop order. -/
def extractDatesFromSentence (ref : Date) (sentence : String) : List DateMatch :=
  allPatterns.foldl
    (fun dates pc => (findMatches pc.1 sentence).foldl (keepMatch ref pc.2) dates)
    []

/-- An output event record. -/
structure Event where
  original_text : String
  date : Option Date
  date_text : String
  event_description : String
  category : String
  confidence : String
deriving DecidableEq, Repr

/-- Sentence segmentation, `re.split(r'[.!?]+', text)` followed by the
loop's strip-and-skip-empty: each maximal run of sentence enders is one
separator (splitting at every single ender would add only empty pieces,
which the filter below removes either way). -/
def isEnderChar (c : Char) : Bool :=
  c = '.' || c = '!' || c = '?'

mutual

/-- Accumulate the current piece until an ender run starts. -/
def splitEndersGo : List Char → List Char → List (List Char)
  | [], acc => [acc.reverse]
  | c :: cs, acc =>
    if isEnderChar c then acc.reverse :: splitEndersSkip cs
    else splitEndersGo cs (c :: acc)

/-- Skip the rest of an ender run. -/
def splitEndersSkip : List Char → List (List Char)
  | [] => []
  | c :: cs => if isEnderChar c then splitEndersSkip cs else splitEndersGo cs [c]

end

/-- Sentences of the input text: split on ender runs, strip, drop empties
(src/app.py lines 40-45). -/
def splitSentences (text : String) : List String :=
  ((splitEndersGo text.data []).map fun p => String.mk (stripChars p)).filter
    fun s => !s.isEmpty

/-- The per-sentence body of `extract_dates_and_events`
(src/app.py lines 47-72). -/
def processSentence (ref : Date) (sentence : String) : List Event :=
  let extractedDates := extractDatesFromSentence ref sentence
  if extractedDates.isEmpty then
    if hasMedicalContent sentence then
      [{ original_text := sentence, date := none,
         date_text := "Date not specified", event_description := sentence,
         category := categorizeEvent sentence, confidence := "low" }]
    else []
  else
    extractedDates.map fun di =>
      { original_text := sentence, date := some di.normalized_date,
        date_text := di.original_text,
        event_description := cleanEventDescription sentence di.original_text,
        category := categorizeEvent sentence, confidence := di.confidence }

/-- `extract_dates_and_events` (src/app.py lines 35-74). -/
def extractDatesAndEvents (ref : Date) (text : String) : List Event :=
  (splitSentences text).flatMap (processSentence ref)

/-! ## The timeline sort (src/app.py lines 406-414)

`analyze_medical_text` partitions events into dated and undated, sorts the
dated ones by the ISO date string (`e['date']`), and appends the undated
ones.  Python's `list.sort` is stable; a stable sort under a fixed total
preorder has a unique result, so it is modelled by a stable insertion
sort over the same key. -/

/-- Four zero-padded decimal digits (`%04d`; `datetime` years are always
1..9999, where this agrees with Python). -/
def pad4 (n : Nat) : List Char :=
  [Nat.digitChar (n / 1000 % 10), Nat.digitChar (n / 100 % 10),
   Nat.digitChar (n / 10 % 10), Nat.digitChar (n % 10)]

/-- Two zero-padded decimal digits (`%02d`). -/
def pad2 (n : Nat) : List Char :=
  [Nat.digitChar (n / 10 % 10), Nat.digitChar (n % 10)]

/-- `date.isoformat()`: `YYYY-MM-DD`. -/
def isoformat (d : Date) : String :=
  String.mk (pad4 d.year.toNat ++ '-' :: (pad2 d.month ++ '-' :: pad2 d.day))

/-- The sort key of an event: the ISO string of its date (undated events
are never passed to the sort). -/
def eventKey (e : Event) : List Char :=
  match e.date with
  | some d => (isoformat d).data
  | none => []

/-- Python's string `<`: lexicographic by code point, a proper prefix is
smaller. -/
def strLtChars : List Char → List Char → Bool
  | [], [] => false
  | [], _ :: _ => true
  | _ :: _, [] => false
  | a :: as, b :: bs =>
    if a < b then true else if b < a then false else strLtChars as bs

/-- Stable insertion of an event into a key-sorted list: the new event
goes before the first element whose key is not smaller, hence before
equal keys (the new event is the earlier one in the original order of
the suffix being sorted). -/
def insertEv (e : Event) : List Event → List Event
  | [] => [e]
  | x :: xs =>
    if strLtChars (eventKey x) (eventKey e) then x :: insertEv e xs
    else e :: x :: xs

/-- Stable sort of the dated events by ISO date string. -/
def sortDated : List Event → List Event
  | [] => []
  | e :: es => insertEv e (sortDated es)

/-- The sorting step of `analyze_medical_text` (src/app.py lines 406-414):
dated events sorted by date string, then undated events in order. -/
def sortEventsByDate (events : List Event) : List Event :=
  let dated := events.filter fun e => e.date.isSome
  let undated := events.filter fun e => e.date.isNone
  sortDated dated ++ undated

/-! ## Auxiliary definitions for the statements below -/

/-- The reference date of the spec's worked examples, 2025-08-22. -/
def referenceDate : Date := ⟨2025, 8, 22⟩

/-- Modelled from the spec: removal of only the FIRST occurrence of the
matched literal ("sentence with the matched literal substring removed
(first textual occurrence)").  This is the spec's description of
`_clean_event_description`, stated for comparison with the source's
`str.replace`, which removes every occurrence. -/
def removeFirst (t : List Char) : List Char → List Char
  | [] => []
  | c :: cs =>
    if !t.isEmpty && t.isPrefixOf (c :: cs) then (c :: cs).drop t.length
    else c :: removeFirst t cs

/-- Modelled from the spec: the event description as the spec words it —
first occurrence of the date literal removed, whitespace collapsed,
falling back to the sentence when empty. -/
def specCleanDescriptionFirst (sentence dateText : String) : String :=
  let cleaned := collapseWs (stripChars (removeFirst dateText.data sentence.data))
  if cleaned.isEmpty then sentence else String.mk cleaned

/-- Every regex hit of every pattern over a sentence, with the pattern
group's confidence, before the normalization filter. -/
def rawPatternMatches (sentence : String) : List (String × String) :=
  allPatterns.flatMap fun pc => (findMatches pc.1 sentence).map fun m => (m, pc.2)

/-- The ten ASCII digit characters (the alphabet of the `\d` class). -/
def digitChars : List Char := ['0', '1', '2', '3', '4', '5', '6', '7', '8', '9']

/-- The sortedness relation of the timeline: the key of the left event is
not greater than the key of the right one (Python sorts ascending by the
ISO date string). -/
def keyLe (a b : Event) : Prop :=
  strLtChars (eventKey b) (eventKey a) = false

/-! # Theorems -/

set_option maxRecDepth 16384

/-- Claim C1: with reference date 2025-08-22, the matcher-plus-normalizer
resolves the three point examples exactly: "August 22, 2025" gives
2025-08-22 at confidence high; "symptoms began approximately three weeks
ago" gives 2025-08-01 at confidence medium; "for the past two weeks"
gives 2025-08-08 at confidence medium. -/
theorem pointExamples_resolve_exactly :
    extractDatesFromSentence referenceDate "August 22, 2025" =
      [{ original_text := "August 22, 2025", normalized_date := ⟨2025, 8, 22⟩,
         confidence := "high" }] ∧
    extractDatesFromSentence referenceDate
        "symptoms began approximately three weeks ago" =
      [{ original_text := "three weeks ago", normalized_date := ⟨2025, 8, 1⟩,
         confidence := "medium" }] ∧
    extractDatesFromSentence referenceDate "for the past two weeks" =
      [{ original_text := "for the past two weeks", normalized_date := ⟨2025, 8, 8⟩,
         confidence := "medium" }] :=
  ⟨by decide, by decide, by decide⟩

/-- Claim C2 as stated is false: `add_months` with offset `-1` moves one
month into the past, so from 2025-01-31 it returns 2024-12-31, not the
claimed 2025-02-28; likewise from 2024-01-31 it returns 2023-12-31, not
2024-02-29. -/
theorem addMonths_minus_one_is_december :
    addMonths ⟨2025, 1, 31⟩ (-1) = some ⟨2024, 12, 31⟩ ∧
    addMonths ⟨2025, 1, 31⟩ (-1) ≠ some ⟨2025, 2, 28⟩ ∧
    addMonths ⟨2024, 1, 31⟩ (-1) = some ⟨2023, 12, 31⟩ ∧
    addMonths ⟨2024, 1, 31⟩ (-1) ≠ some ⟨2024, 2, 29⟩ :=
  ⟨by decide, by decide, by decide, by decide⟩

/-- Claim C2, amended: the clamped February results the spec's examples
describe are produced by offset `+1`: `add_months(2025-01-31, 1)` is
2025-02-28 (non-leap) and `add_months(2024-01-31, 1)` is 2024-02-29
(leap). -/
theorem addMonths_plus_one_clamps_february :
    addMonths ⟨2025, 1, 31⟩ 1 = some ⟨2025, 2, 28⟩ ∧
    addMonths ⟨2024, 1, 31⟩ 1 = some ⟨2024, 2, 29⟩ :=
  ⟨by decide, by decide⟩

/-- The high loop of `_add_months` preserves `12*year + month`, ends at
most at 12, and keeps months positive; the fuel hypothesis is satisfied
by the wrapper's choice. -/
theorem fixMonthHighGo_spec (fuel : Nat) :
    ∀ y m : Int, m ≤ 12 + 12 * (fuel : Int) →
      12 * (fixMonthHighGo y m fuel).1 + (fixMonthHighGo y m fuel).2 = 12 * y + m ∧
      (fixMonthHighGo y m fuel).2 ≤ 12 ∧
      (1 ≤ m → 1 ≤ (fixMonthHighGo y m fuel).2) := by
  induction fuel with
  | zero =>
    intro y m hm
    have h0 : fixMonthHighGo y m 0 = (y, m) := rfl
    rw [h0]
    omega
  | succ n ih =>
    intro y m hm
    have hs : fixMonthHighGo y m (n + 1) =
        if m > 12 then fixMonthHighGo (y + 1) (m - 12) n else (y, m) := rfl
    rw [hs]
    by_cases h : m > 12
    · rw [if_pos h]
      have := ih (y + 1) (m - 12) (by omega)
      omega
    · rw [if_neg h]
      omega

/-- The low loop of `_add_months` preserves `12*year + month`, ends at
least at 1, and does not push a small month past 12. -/
theorem fixMonthLowGo_spec (fuel : Nat) :
    ∀ y m : Int, 1 - 12 * (fuel : Int) ≤ m →
      12 * (fixMonthLowGo y m fuel).1 + (fixMonthLowGo y m fuel).2 = 12 * y + m ∧
      1 ≤ (fixMonthLowGo y m fuel).2 ∧
      (m ≤ 12 → (fixMonthLowGo y m fuel).2 ≤ 12) := by
  induction fuel with
  | zero =>
    intro y m hm
    have h0 : fixMonthLowGo y m 0 = (y, m) := rfl
    rw [h0]
    omega
  | succ n ih =>
    intro y m hm
    have hs : fixMonthLowGo y m (n + 1) =
        if m < 1 then fixMonthLowGo (y - 1) (m + 12) n else (y, m) := rfl
    rw [hs]
    by_cases h : m < 1
    · rw [if_pos h]
      have := ih (y - 1) (m + 12) (by omega)
      omega
    · rw [if_neg h]
      omega

/-- Specification of the first normalization loop. -/
theorem fixMonthHigh_spec (y m : Int) :
    12 * (fixMonthHigh y m).1 + (fixMonthHigh y m).2 = 12 * y + m ∧
    (fixMonthHigh y m).2 ≤ 12 ∧
    (1 ≤ m → 1 ≤ (fixMonthHigh y m).2) :=
  fixMonthHighGo_spec (m - 12).toNat y m (by omega)

/-- Specification of the second normalization loop. -/
theorem fixMonthLow_spec (y m : Int) :
    12 * (fixMonthLow y m).1 + (fixMonthLow y m).2 = 12 * y + m ∧
    1 ≤ (fixMonthLow y m).2 ∧
    (m ≤ 12 → (fixMonthLow y m).2 ≤ 12) :=
  fixMonthLowGo_spec (1 - m).toNat y m (by omega)

/-- Every month has at least 28 days. -/
theorem daysInMonth_pos (y : Int) (m : Nat) : 28 ≤ daysInMonth y m := by
  unfold daysInMonth
  split
  · split <;> omega
  · split <;> omega

/-- February has at most 29 days. -/
theorem daysInMonth_feb_le (y : Int) : daysInMonth y 2 ≤ 29 := by
  cases h : isLeap y <;> simp [daysInMonth, h]

/-- The `datetime` constructor model as an `if` over propositional
range conditions. -/
theorem mkDate?_cases (y : Int) (m dd : Nat) :
    mkDate? y m dd =
      if 1 ≤ y ∧ y ≤ 9999 ∧ 1 ≤ m ∧ m ≤ 12 ∧ 1 ≤ dd ∧ dd ≤ daysInMonth y m then
        some ⟨y, m, dd⟩
      else none := by
  unfold mkDate?
  by_cases h : 1 ≤ y ∧ y ≤ 9999 ∧ 1 ≤ m ∧ m ≤ 12 ∧ 1 ≤ dd ∧ dd ≤ daysInMonth y m
  · rw [if_pos h, if_pos]
    simp only [Bool.and_eq_true, decide_eq_true_eq]
    obtain ⟨h1, h2, h3, h4, h5, h6⟩ := h
    exact ⟨⟨⟨⟨⟨h1, h2⟩, h3⟩, h4⟩, h5⟩, h6⟩
  · rw [if_neg h, if_neg]
    intro hc
    simp only [Bool.and_eq_true, decide_eq_true_eq] at hc
    exact h ⟨hc.1.1.1.1.1, hc.1.1.1.1.2, hc.1.1.1.2, hc.1.1.2, hc.1.2, hc.2⟩

/-- Claim C3, amended to `datetime`'s year range: when `_add_months`
returns a date (not an exception), the month count `12*year + month`
changes by exactly `k`, the resulting month is in 1..12, the resulting
day is the original day clamped to the length of the resulting month
(never a rollover into the next month), and the result is again a
representable date; the call fails (raises, caught by every caller as
`None`) exactly when the carried month count leaves the representable
band 0001-01 .. 9999-12; and January 31 plus one month is the last day
of February, leap-year-aware. -/
theorem addMonths_adds_and_clamps (d : Date) (k : Int) (hv : validDate d) :
    (∀ r, addMonths d k = some r →
      12 * r.year + (r.month : Int) = 12 * d.year + (d.month : Int) + k ∧
      1 ≤ r.month ∧ r.month ≤ 12 ∧
      r.day = min d.day (daysInMonth r.year r.month) ∧
      validDate r) ∧
    (addMonths d k = none ↔
      ¬ (13 ≤ 12 * d.year + (d.month : Int) + k ∧
          12 * d.year + (d.month : Int) + k ≤ 120000)) ∧
    (d.month = 1 ∧ d.day = 31 →
      addMonths d 1 = some ⟨d.year, 2, daysInMonth d.year 2⟩) := by
  obtain ⟨hy1, hy2, hm1, hm2, hd1, hd2⟩ := hv
  have hjan : d.month = 1 ∧ d.day = 31 →
      addMonths d 1 = some ⟨d.year, 2, daysInMonth d.year 2⟩ := by
    rintro ⟨hmo, hda⟩
    obtain ⟨y, mo, da⟩ := d
    simp only at hmo hda hy1 hy2 ⊢
    subst hmo hda
    have hfeb := daysInMonth_feb_le y
    have hfebPos := daysInMonth_pos y 2
    have hrr : addMonths ⟨y, 1, 31⟩ 1 =
        match mkDate? y 2 31 with
        | some r => some r
        | none => mkDate? y 2 (min 31 (daysInMonth y 2)) := rfl
    have h1 : mkDate? y 2 31 = none := by
      rw [mkDate?_cases, if_neg (by omega)]
    rw [hrr, h1]
    have hmin : min 31 (daysInMonth y 2) = daysInMonth y 2 := by omega
    rw [hmin, mkDate?_cases, if_pos (by omega)]
  obtain ⟨hpSum, hpLe, _⟩ := fixMonthHigh_spec d.year ((d.month : Int) + k)
  obtain ⟨hqSum, hqGe, hqLe'⟩ :=
    fixMonthLow_spec (fixMonthHigh d.year ((d.month : Int) + k)).1
      (fixMonthHigh d.year ((d.month : Int) + k)).2
  have hqLe := hqLe' hpLe
  set q := fixMonthLow (fixMonthHigh d.year ((d.month : Int) + k)).1
      (fixMonthHigh d.year ((d.month : Int) + k)).2 with hqdef
  have hr : addMonths d k =
      match mkDate? q.1 q.2.toNat d.day with
      | some r => some r
      | none => mkDate? q.1 q.2.toNat (min d.day (daysInMonth q.1 q.2.toNat)) := rfl
  have hcast : ((q.2.toNat : Nat) : Int) = q.2 := Int.toNat_of_nonneg (by omega)
  have hdimPos := daysInMonth_pos q.1 q.2.toNat
  by_cases hy : 1 ≤ q.1 ∧ q.1 ≤ 9999
  · have hres : ∃ dd : Nat, addMonths d k = some ⟨q.1, q.2.toNat, dd⟩ ∧
        dd = min d.day (daysInMonth q.1 q.2.toNat) ∧
        1 ≤ dd ∧ dd ≤ daysInMonth q.1 q.2.toNat := by
      by_cases hday : d.day ≤ daysInMonth q.1 q.2.toNat
      · refine ⟨d.day, ?_, by omega, hd1, hday⟩
        rw [hr, mkDate?_cases, if_pos ⟨hy.1, hy.2, by omega, by omega, hd1, hday⟩]
      · refine ⟨min d.day (daysInMonth q.1 q.2.toNat), ?_, rfl, by omega, by omega⟩
        have h1 : mkDate? q.1 q.2.toNat d.day = none := by
          rw [mkDate?_cases, if_neg (by omega)]
        rw [hr, h1, mkDate?_cases,
          if_pos ⟨hy.1, hy.2, by omega, by omega, by omega, by omega⟩]
    obtain ⟨dd, hres, hddmin, hdd1, hdd2⟩ := hres
    refine ⟨?_, ?_, hjan⟩
    · intro r hrr
      rw [hres] at hrr
      injection hrr with h'
      subst h'
      refine ⟨?_, ?_, ?_, ?_, ?_⟩
      · simp only []; omega
      · simp only []; omega
      · simp only []; omega
      · simp only []; omega
      · unfold validDate; simp only []; omega
    · rw [hres]
      constructor
      · intro h'; exact Option.noConfusion h'
      · intro hcon; exact absurd ⟨by omega, by omega⟩ hcon
  · have h1 : mkDate? q.1 q.2.toNat d.day = none := by
      rw [mkDate?_cases, if_neg (by omega)]
    have h2 : mkDate? q.1 q.2.toNat (min d.day (daysInMonth q.1 q.2.toNat)) = none := by
      rw [mkDate?_cases, if_neg (by omega)]
    have hres : addMonths d k = none := by rw [hr, h1, h2]
    refine ⟨?_, ?_, hjan⟩
    · intro r hrr
      rw [hres] at hrr
      exact Option.noConfusion hrr
    · rw [hres]
      constructor
      · intro _; omega
      · intro _; rfl

/-- Witness for claim C3 at the concrete input 2025-01-31 with offset 1,
where `_add_months` returns 2025-02-28. -/
theorem addMonths_adds_and_clamps_witness :
    validDate ⟨2025, 1, 31⟩ ∧
    addMonths ⟨2025, 1, 31⟩ 1 = some ⟨2025, 2, 28⟩ ∧
    (12 * (Date.mk 2025 2 28).year + ((Date.mk 2025 2 28).month : Int) =
        12 * (Date.mk 2025 1 31).year + ((Date.mk 2025 1 31).month : Int) + 1 ∧
      1 ≤ (Date.mk 2025 2 28).month ∧ (Date.mk 2025 2 28).month ≤ 12 ∧
      (Date.mk 2025 2 28).day =
        min (Date.mk 2025 1 31).day
          (daysInMonth (Date.mk 2025 2 28).year (Date.mk 2025 2 28).month) ∧
      validDate ⟨2025, 2, 28⟩) ∧
    ((Date.mk 2025 1 31).month = 1 ∧ (Date.mk 2025 1 31).day = 31 →
      addMonths ⟨2025, 1, 31⟩ 1 =
        some ⟨(Date.mk 2025 1 31).year, 2, daysInMonth (Date.mk 2025 1 31).year 2⟩) :=
  ⟨by decide, by decide,
    (addMonths_adds_and_clamps ⟨2025, 1, 31⟩ 1 (by decide)).1 ⟨2025, 2, 28⟩ (by decide),
    (addMonths_adds_and_clamps ⟨2025, 1, 31⟩ 1 (by decide)).2.2⟩

/-- Claim C3 as stated is false at the upper edge of `datetime`'s year
range: 9999-12-01 is a representable date, but `_add_months` with offset
1 carries the year to 10000, both `datetime` constructions raise
`ValueError`, and the exception escapes (every caller maps it to `None`),
so no shifted-and-clamped result exists at all. -/
theorem addMonths_year_overflow_counterexample :
    validDate ⟨9999, 12, 1⟩ ∧ addMonths ⟨9999, 12, 1⟩ 1 = none :=
  ⟨by decide, by decide⟩


/-- Claim C5: the categorizer scores each of the four categories as the
number of its keywords occurring as case-insensitive substrings of the
sentence, picks a category with maximal score breaking ties by the fixed
enumeration order (Disease Onset/Progression, Treatment,
Appointment/Scheduling, Other Clinical Observations), and returns
"Other Clinical Observations" whenever every score is zero. -/
theorem categorizeEvent_first_max (s : String) :
    categorizeEvent s =
      (let n1 := categoryScore s onsetKeywords
       let n2 := categoryScore s treatmentKeywords
       let n3 := categoryScore s appointmentKeywords
       let n4 := categoryScore s otherKeywords
       if n1 = 0 ∧ n2 = 0 ∧ n3 = 0 ∧ n4 = 0 then "Other Clinical Observations"
       else if n2 ≤ n1 ∧ n3 ≤ n1 ∧ n4 ≤ n1 then "Disease Onset/Progression"
       else if n3 ≤ n2 ∧ n4 ≤ n2 then "Treatment"
       else if n4 ≤ n3 then "Appointment/Scheduling"
       else "Other Clinical Observations") := by
  simp only [categorizeEvent, medicalKeywords, maxBySecond, List.map, List.foldl,
    List.all_cons, List.all_nil, Bool.and_true, Bool.and_eq_true, decide_eq_true_eq]
  split_ifs <;> first | rfl | omega

/-- The inner loop of the extractor is a `filterMap`: one DateMatch per
match whose normalization succeeds. -/
theorem foldl_keepMatch (ref : Date) (conf : String) :
    ∀ (l : List String) (acc : List DateMatch),
      l.foldl (keepMatch ref conf) acc
        = acc ++ l.filterMap fun m =>
            (normalizeDate ref m).map fun d =>
              { original_text := m, normalized_date := d, confidence := conf } := by
  intro l
  induction l with
  | nil => intro acc; simp
  | cons x xs ih =>
    intro acc
    simp only [List.foldl_cons, List.filterMap_cons]
    cases h : normalizeDate ref x with
    | none =>
      simp only [Option.map_none', ih, keepMatch, h]
    | some d =>
      simp only [keepMatch, h, Option.map_some', ih, List.append_assoc,
        List.singleton_append]

/-- A loop appending a block per item is a `flatMap`. -/
theorem foldl_appendStep {α β : Type} (g : α → List β) :
    ∀ (l : List α) (acc : List β),
      l.foldl (fun a x => a ++ g x) acc = acc ++ l.flatMap g := by
  intro l
  induction l with
  | nil => intro acc; simp
  | cons x xs ih => intro acc; simp [ih]

/-- The per-sentence extraction loop equals a `filterMap` of the raw
pattern matches through the normalizer. -/
theorem extractDates_filterMap (ref : Date) (sentence : String) :
    extractDatesFromSentence ref sentence =
      (rawPatternMatches sentence).filterMap fun mc =>
        (normalizeDate ref mc.1).map fun d =>
          { original_text := mc.1, normalized_date := d, confidence := mc.2 } := by
  unfold extractDatesFromSentence rawPatternMatches
  have hstep : (fun (dates : List DateMatch) (pc : RE × String) =>
      (findMatches pc.1 sentence).foldl (keepMatch ref pc.2) dates) =
      fun dates pc => dates ++ (findMatches pc.1 sentence).filterMap fun m =>
        (normalizeDate ref m).map fun d =>
          { original_text := m, normalized_date := d, confidence := pc.2 } := by
    funext dates pc
    exact foldl_keepMatch ref pc.2 (findMatches pc.1 sentence) dates
  rw [hstep, foldl_appendStep, List.filterMap_flatMap]
  rw [List.nil_append]
  congr 1
  funext pc
  rw [List.filterMap_map]
  rfl

/-- Claim C6: a DateMatch is produced for a regex match exactly when
normalization of the matched text succeeds: the extraction loop equals a
`filterMap` of the raw pattern matches through the normalizer, so a
failed normalization silently drops the match (and, normalization being a
total function into `Option`, no failure escapes as an error). -/
theorem extractDates_iff_normalization (ref : Date) (sentence : String) :
    extractDatesFromSentence ref sentence =
      (rawPatternMatches sentence).filterMap fun mc =>
        (normalizeDate ref mc.1).map fun d =>
          { original_text := mc.1, normalized_date := d, confidence := mc.2 } :=
  extractDates_filterMap ref sentence

/-- Claim C7: for a sentence with zero successful DateMatches, exactly one
undated Event (date absent, date text "Date not specified", description
the full sentence, confidence low) is emitted when the sentence contains
one of the eleven medical-content indicators case-insensitively, and no
Event at all otherwise. -/
theorem undatedPath (ref : Date) (sentence : String)
    (h : extractDatesFromSentence ref sentence = []) :
    processSentence ref sentence =
      if hasMedicalContent sentence then
        [{ original_text := sentence, date := none,
           date_text := "Date not specified", event_description := sentence,
           category := categorizeEvent sentence, confidence := "low" }]
      else [] := by
  unfold processSentence
  rw [h]
  rfl

/-- Witness for claim C7 at a concrete dateless sentence containing the
indicator "patient". -/
theorem undatedPath_witness :
    extractDatesFromSentence referenceDate "The patient was examined" = [] ∧
    processSentence referenceDate "The patient was examined" =
      if hasMedicalContent "The patient was examined" then
        [{ original_text := "The patient was examined", date := none,
           date_text := "Date not specified",
           event_description := "The patient was examined",
           category := categorizeEvent "The patient was examined",
           confidence := "low" }]
      else [] :=
  ⟨by decide, undatedPath referenceDate "The patient was examined" (by decide)⟩

/-- Claim C4 as stated is false: `str.replace` removes EVERY textual
occurrence of the matched date literal, not only the first.  In the
sentence "checkup today and today" both copies of the matched literal
"today" are removed from both generated events, where the first-occurrence
reading of the spec would keep the second copy. -/
theorem description_removes_every_occurrence_counterexample :
    ((extractDatesAndEvents referenceDate "checkup today and today").map
        fun e => e.event_description) = ["checkup and", "checkup and"] ∧
    ((extractDatesAndEvents referenceDate "checkup today and today").map
        fun e => specCleanDescriptionFirst e.original_text e.date_text) =
      ["checkup and today", "checkup and today"] ∧
    ((extractDatesAndEvents referenceDate "checkup today and today").all
        fun e => e.date.isSome) = true ∧
    ("checkup and" : String) ≠ "checkup and today" :=
  ⟨by decide, by decide, by decide, by decide⟩

/-- Claim C4, amended: for every dated Event the description equals the
source sentence with every non-overlapping occurrence of the matched date
literal removed (scanning left to right), stripped, whitespace-collapsed,
falling back to the full sentence if the result is empty — that is,
`_clean_event_description` of the sentence and the matched literal. -/
theorem datedEvent_description (ref : Date) (text : String) :
    ∀ e ∈ extractDatesAndEvents ref text, e.date.isSome = true →
      e.event_description = cleanEventDescription e.original_text e.date_text := by
  intro e he hsome
  unfold extractDatesAndEvents at he
  rw [List.mem_flatMap] at he
  obtain ⟨s, _, hes⟩ := he
  unfold processSentence at hes
  by_cases hempty : (extractDatesFromSentence ref s).isEmpty = true
  · rw [if_pos hempty] at hes
    by_cases hmed : hasMedicalContent s = true
    · rw [if_pos hmed] at hes
      rw [List.mem_singleton] at hes
      subst hes
      simp at hsome
    · rw [if_neg hmed] at hes
      simp at hes
  · rw [if_neg hempty] at hes
    rw [List.mem_map] at hes
    obtain ⟨di, _, he2⟩ := hes
    subst he2
    rfl

/-- Witness for the amended claim C4 at the single dated event of
"checkup today". -/
theorem datedEvent_description_witness :
    ({ original_text := "checkup today", date := some ⟨2025, 8, 22⟩,
       date_text := "today", event_description := "checkup",
       category := "Other Clinical Observations", confidence := "high" } : Event)
        ∈ extractDatesAndEvents referenceDate "checkup today" ∧
    (Event.mk "checkup today" (some ⟨2025, 8, 22⟩) "today" "checkup"
        "Other Clinical Observations" "high").date.isSome = true ∧
    (Event.mk "checkup today" (some ⟨2025, 8, 22⟩) "today" "checkup"
        "Other Clinical Observations" "high").event_description =
      cleanEventDescription "checkup today" "today" :=
  ⟨by decide, by decide,
    datedEvent_description referenceDate "checkup today" _ (by decide) (by decide)⟩


/-- The Python string order is transitive. -/
theorem strLt_trans : ∀ a b c : List Char,
    strLtChars a b = true → strLtChars b c = true → strLtChars a c = true := by
  intro a
  induction a with
  | nil =>
    intro b c hab hbc
    cases b with
    | nil => simp [strLtChars] at hab
    | cons y ys =>
      cases c with
      | nil => simp [strLtChars] at hbc
      | cons z zs => simp [strLtChars]
  | cons x xs ih =>
    intro b c hab hbc
    cases b with
    | nil => simp [strLtChars] at hab
    | cons y ys =>
      cases c with
      | nil => simp [strLtChars] at hbc
      | cons z zs =>
        simp only [strLtChars] at hab hbc ⊢
        split at hab
        · -- x < y
          rename_i hxy
          split at hbc
          · rename_i hyz
            rw [if_pos (lt_trans hxy hyz)]
          · split at hbc
            · simp at hbc
            · rename_i hyz hzy
              have : y = z := le_antisymm (not_lt.mp hzy) (not_lt.mp hyz)
              subst this
              rw [if_pos hxy]
        · split at hab
          · simp at hab
          · rename_i hxy hyx
            have hxyEq : x = y := le_antisymm (not_lt.mp hyx) (not_lt.mp hxy)
            subst hxyEq
            split at hbc
            · rename_i hxz
              rw [if_pos hxz]
            · split at hbc
              · simp at hbc
              · rename_i hxz hzx
                have : x = z := le_antisymm (not_lt.mp hzx) (not_lt.mp hxz)
                subst this
                rw [if_neg (lt_irrefl x), if_neg (lt_irrefl x)]
                exact ih ys zs hab hbc

/-- Two strings neither of which is smaller are equal. -/
theorem strLt_not_both : ∀ a b : List Char,
    strLtChars a b = false → strLtChars b a = false → a = b := by
  intro a
  induction a with
  | nil =>
    intro b hab _
    cases b with
    | nil => rfl
    | cons y ys => simp [strLtChars] at hab
  | cons x xs ih =>
    intro b hab hba
    cases b with
    | nil => simp [strLtChars] at hba
    | cons y ys =>
      simp only [strLtChars] at hab hba
      split at hab
      · simp at hab
      · split at hab
        · rename_i hxy hyx
          rw [if_pos hyx] at hba
          simp at hba
        · rename_i hxy hyx
          have : x = y := le_antisymm (not_lt.mp hyx) (not_lt.mp hxy)
          subst this
          rw [if_neg (lt_irrefl x), if_neg (lt_irrefl x)] at hba
          rw [ih ys hab hba]

/-- The string order is irreflexive. -/
theorem strLt_irrefl : ∀ a : List Char, strLtChars a a = false := by
  intro a
  induction a with
  | nil => rfl
  | cons x xs ih =>
    simp only [strLtChars, if_neg (lt_irrefl x)]
    exact ih

/-- The string order is asymmetric. -/
theorem strLt_asymm {a b : List Char} (h : strLtChars a b = true) :
    strLtChars b a = false := by
  by_contra hba
  have hba' : strLtChars b a = true := by
    cases hh : strLtChars b a
    · exact absurd hh hba
    · rfl
  have := strLt_trans a b a h hba'
  rw [strLt_irrefl] at this
  exact Bool.false_ne_true this

/-- A boolean that is not true is false. -/
theorem boolNotTrue {b : Bool} (h : ¬ b = true) : b = false := by
  cases hb : b
  · rfl
  · exact absurd hb h

/-- The associated not-greater relation is transitive. -/
theorem strLt_le_trans {a b c : List Char}
    (hba : strLtChars b a = false) (hcb : strLtChars c b = false) :
    strLtChars c a = false := by
  cases hca : strLtChars c a
  · rfl
  · exfalso
    cases hab : strLtChars a b
    · have hEq : a = b := strLt_not_both a b hab hba
      subst hEq
      rw [hca] at hcb
      exact Bool.noConfusion hcb
    · have := strLt_trans c a b hca hab
      rw [this] at hcb
      exact Bool.noConfusion hcb

/-- A strictly smaller string is different. -/
theorem strLt_ne {a b : List Char} (h : strLtChars a b = true) : a ≠ b := by
  intro hEq
  subst hEq
  rw [strLt_irrefl] at h
  exact Bool.false_ne_true h

/-- Stable insertion permutes. -/
theorem insertEv_perm (e : Event) : ∀ l : List Event, (insertEv e l).Perm (e :: l) := by
  intro l
  induction l with
  | nil => exact List.Perm.refl _
  | cons x xs ih =>
    unfold insertEv
    split
    · exact ((ih.cons x).trans (List.Perm.swap e x xs)).symm.symm
    · exact List.Perm.refl _

/-- Stable insertion preserves sortedness. -/
theorem insertEv_pairwise (e : Event) :
    ∀ l : List Event, l.Pairwise keyLe → (insertEv e l).Pairwise keyLe := by
  intro l
  induction l with
  | nil => intro _; exact List.pairwise_singleton keyLe e
  | cons x xs ih =>
    intro hp
    rw [List.pairwise_cons] at hp
    obtain ⟨hx, hxs⟩ := hp
    unfold insertEv
    split
    · rename_i hlt
      rw [List.pairwise_cons]
      constructor
      · intro y hy
        have hmem := List.mem_cons.mp ((insertEv_perm e xs).mem_iff.mp hy)
        rcases hmem with hye | hyxs
        · subst hye
          exact strLt_asymm hlt
        · exact hx y hyxs
      · exact ih hxs
    · rename_i hnlt
      rw [List.pairwise_cons]
      constructor
      · intro y hy
        rcases List.mem_cons.mp hy with hyx | hyxs
        · subst hyx
          exact boolNotTrue hnlt
        · exact strLt_le_trans (boolNotTrue hnlt) (hx y hyxs)
      · rw [List.pairwise_cons]
        exact ⟨hx, hxs⟩

/-- Inserting an event the filter rejects leaves the filtering unchanged. -/
theorem filter_insertEv_neg (p : Event → Bool) (e : Event) (hpe : p e = false) :
    ∀ l : List Event, (insertEv e l).filter p = l.filter p := by
  intro l
  induction l with
  | nil => simp [insertEv, hpe]
  | cons x xs ih =>
    unfold insertEv
    split
    · simp only [List.filter_cons]
      rw [ih]
    · rw [List.filter_cons]
      simp [hpe]

/-- Inserting an event with key `k` puts it in front of the other
key-`k` events: stable insertion never jumps over an equal key. -/
theorem filter_insertEv_pos (k : List Char) (e : Event)
    (hpe : (e.date.isSome && (eventKey e == k)) = true) :
    ∀ l : List Event,
      (insertEv e l).filter (fun x => x.date.isSome && (eventKey x == k)) =
        e :: l.filter (fun x => x.date.isSome && (eventKey x == k)) := by
  have hkey : eventKey e = k := by
    have := (Bool.and_eq_true _ _).mp hpe
    exact eq_of_beq this.2
  intro l
  induction l with
  | nil => simp [insertEv, hpe]
  | cons x xs ih =>
    unfold insertEv
    split
    · rename_i hlt
      have hxk : (eventKey x == k) = false := by
        have hne : eventKey x ≠ k := by
          rw [← hkey]
          exact strLt_ne hlt
        exact beq_eq_false_iff_ne.mpr hne
      simp only [List.filter_cons]
      rw [ih]
      simp [hxk]
    · rw [List.filter_cons (x := e)]
      simp [hpe]

/-- The insertion sort permutes its input. -/
theorem sortDated_perm : ∀ l : List Event, (sortDated l).Perm l := by
  intro l
  induction l with
  | nil => exact List.Perm.refl _
  | cons e es ih =>
    unfold sortDated
    exact (insertEv_perm e (sortDated es)).trans (ih.cons e)

/-- The insertion sort sorts by the ISO date string key. -/
theorem sortDated_pairwise : ∀ l : List Event, (sortDated l).Pairwise keyLe := by
  intro l
  induction l with
  | nil => exact List.Pairwise.nil
  | cons e es ih =>
    unfold sortDated
    exact insertEv_pairwise e (sortDated es) ih

/-- Stability: for every key, the sort preserves the original relative
order of the events carrying that key. -/
theorem sortDated_filter_key (k : List Char) :
    ∀ l : List Event,
      (sortDated l).filter (fun x => x.date.isSome && (eventKey x == k)) =
        l.filter (fun x => x.date.isSome && (eventKey x == k)) := by
  intro l
  induction l with
  | nil => rfl
  | cons e es ih =>
    unfold sortDated
    cases hpe : (e.date.isSome && (eventKey e == k))
    · rw [filter_insertEv_neg _ e hpe, ih, List.filter_cons]
      simp [hpe]
    · rw [filter_insertEv_pos k e hpe, ih, List.filter_cons]
      simp [hpe]

/-- Digit characters compare like the digits they encode. -/
theorem digitChar_mod_lt_iff (x y : Nat) :
    (Nat.digitChar (x % 10) < Nat.digitChar (y % 10)) ↔ x % 10 < y % 10 := by
  have hx : x % 10 < 10 := Nat.mod_lt x (by decide)
  have hy : y % 10 < 10 := Nat.mod_lt y (by decide)
  set a := x % 10 with ha
  set b := y % 10 with hb
  interval_cases a <;> interval_cases b <;> decide

/-- One comparison step of the Python string order. -/
theorem strLt_cons (c1 c2 : Char) (t1 t2 : List Char) :
    strLtChars (c1 :: t1) (c2 :: t2) =
      if c1 < c2 then true else if c2 < c1 then false else strLtChars t1 t2 := rfl

/-- Comparing two four-digit zero-padded blocks compares the numbers. -/
theorem strLt_pad4 (a b : Nat) (ha : a ≤ 9999) (hb : b ≤ 9999) (t1 t2 : List Char) :
    strLtChars (pad4 a ++ t1) (pad4 b ++ t2) =
      if a < b then true else if b < a then false else strLtChars t1 t2 := by
  simp only [pad4, List.cons_append, List.nil_append, strLt_cons, digitChar_mod_lt_iff]
  split_ifs <;> first | rfl | omega

/-- Comparing two two-digit zero-padded blocks compares the numbers. -/
theorem strLt_pad2 (a b : Nat) (ha : a ≤ 99) (hb : b ≤ 99) (t1 t2 : List Char) :
    strLtChars (pad2 a ++ t1) (pad2 b ++ t2) =
      if a < b then true else if b < a then false else strLtChars t1 t2 := by
  simp only [pad2, List.cons_append, List.nil_append, strLt_cons, digitChar_mod_lt_iff]
  split_ifs <;> first | rfl | omega

/-- The lexical order on ISO date strings coincides with chronological
order (year, then month, then day) for dates in the representable range —
the equivalence the timeline sort relies on when it sorts the events by
their ISO date strings. -/
theorem strLt_isoformat_iff (d1 d2 : Date)
    (hy1 : 0 ≤ d1.year) (hy1b : d1.year ≤ 9999)
    (hy2 : 0 ≤ d2.year) (hy2b : d2.year ≤ 9999)
    (hm1 : d1.month ≤ 99) (hm2 : d2.month ≤ 99)
    (hd1 : d1.day ≤ 99) (hd2 : d2.day ≤ 99) :
    (strLtChars (isoformat d1).data (isoformat d2).data = true ↔
      (d1.year < d2.year ∨ (d1.year = d2.year ∧
        (d1.month < d2.month ∨ (d1.month = d2.month ∧ d1.day < d2.day))))) := by
  have hdata : ∀ d : Date, (isoformat d).data =
      pad4 d.year.toNat ++ '-' :: (pad2 d.month ++ '-' :: pad2 d.day) := fun _ => rfl
  rw [hdata, hdata]
  rw [strLt_pad4 _ _ (by omega) (by omega)]
  rw [strLt_cons]
  rw [strLt_pad2 _ _ (by omega) (by omega)]
  rw [strLt_cons]
  rw [show pad2 d1.day = pad2 d1.day ++ [] by simp, show pad2 d2.day = pad2 d2.day ++ [] by simp]
  rw [strLt_pad2 _ _ (by omega) (by omega)]
  rw [if_neg (lt_irrefl '-'), if_neg (lt_irrefl '-'), if_neg (lt_irrefl '-'),
    if_neg (lt_irrefl '-')]
  rw [show strLtChars [] [] = false from rfl]
  split_ifs <;> first | (simp; omega) | simp | omega

/-- Claim C8: the final output is the dated events followed by the
undated events (every undated event comes after every dated one); the
undated events keep their original relative order; the dated prefix is
sorted ascending by the ISO date string; the sort is stable (for every
key value, events with that key keep their original relative order); and
the output is a permutation of the input. -/
theorem sortEvents_shape (evs : List Event) :
    sortEventsByDate evs =
      (sortEventsByDate evs).filter (fun e => e.date.isSome) ++
        (sortEventsByDate evs).filter (fun e => e.date.isNone) ∧
    (sortEventsByDate evs).filter (fun e => e.date.isNone) =
      evs.filter (fun e => e.date.isNone) ∧
    ((sortEventsByDate evs).filter (fun e => e.date.isSome)).Pairwise keyLe ∧
    (∀ k : List Char,
      (sortEventsByDate evs).filter (fun e => e.date.isSome && (eventKey e == k)) =
        evs.filter (fun e => e.date.isSome && (eventKey e == k))) ∧
    (sortEventsByDate evs).Perm evs := by
  have hsort : sortEventsByDate evs =
      sortDated (evs.filter fun e => e.date.isSome) ++
        evs.filter (fun e => e.date.isNone) := rfl
  have hDall : ∀ e ∈ sortDated (evs.filter fun e => e.date.isSome),
      e.date.isSome = true := by
    intro e he
    have := (sortDated_perm _).mem_iff.mp he
    exact (List.mem_filter.mp this).2
  have hUnone : ∀ e ∈ evs.filter (fun e => e.date.isNone), e.date.isSome = false := by
    intro e he
    have h2 := (List.mem_filter.mp he).2
    cases hd : e.date
    · simp
    · rw [hd] at h2; simp at h2
  have hFilterSome : (sortEventsByDate evs).filter (fun e => e.date.isSome) =
      sortDated (evs.filter fun e => e.date.isSome) := by
    rw [hsort, List.filter_append]
    rw [List.filter_eq_self.mpr hDall]
    have : (evs.filter fun e => e.date.isNone).filter (fun e => e.date.isSome) = [] := by
      rw [List.filter_eq_nil_iff]
      intro e he
      rw [hUnone e he]
      simp
    rw [this, List.append_nil]
  have hFilterNone : (sortEventsByDate evs).filter (fun e => e.date.isNone) =
      evs.filter (fun e => e.date.isNone) := by
    rw [hsort, List.filter_append]
    have h1 : (sortDated (evs.filter fun e => e.date.isSome)).filter
        (fun e => e.date.isNone) = [] := by
      rw [List.filter_eq_nil_iff]
      intro e he
      rw [← Option.bnot_isSome, hDall e he]
      simp
    have h2 : (evs.filter fun e => e.date.isNone).filter (fun e => e.date.isNone) =
        evs.filter (fun e => e.date.isNone) := by
      rw [List.filter_eq_self]
      intro e he
      exact (List.mem_filter.mp he).2
    rw [h1, h2, List.nil_append]
  refine ⟨?_, hFilterNone, ?_, ?_, ?_⟩
  · rw [hFilterSome, hFilterNone, hsort]
  · rw [hFilterSome]
    exact sortDated_pairwise _
  · intro k
    rw [hsort, List.filter_append]
    have hU : (evs.filter fun e => e.date.isNone).filter
        (fun e => e.date.isSome && (eventKey e == k)) = [] := by
      rw [List.filter_eq_nil_iff]
      intro e he
      rw [hUnone e he]
      simp
    rw [hU, List.append_nil, sortDated_filter_key k]
    rw [List.filter_filter]
    congr 1
    funext x
    cases hx : x.date.isSome <;> simp [hx]
  · rw [hsort]
    have hperm1 := (sortDated_perm (evs.filter fun e => e.date.isSome)).append_right
      (evs.filter fun e => e.date.isNone)
    refine hperm1.trans ?_
    have : evs.filter (fun e => e.date.isNone) =
        evs.filter (fun e => !(e.date.isSome)) := by
      congr 1
      funext x
      rw [Option.bnot_isSome]
    rw [this]
    exact List.filter_append_perm _ evs

/-- A needle starting with a non-digit character never matches inside a
digit run: the substring scan passes over the digits unchanged. -/
theorem containsSub_digits_append (nh : Char) (nt : List Char)
    (hnh : ∀ c ∈ digitChars, (nh == c) = false) :
    ∀ (ds rest : List Char), (∀ c ∈ ds, c ∈ digitChars) →
      containsSub (ds ++ rest) (nh :: nt) = containsSub rest (nh :: nt) := by
  intro ds
  induction ds with
  | nil => intro rest _; rfl
  | cons c cs ih =>
    intro rest hmem
    have hcd : c ∈ digitChars := hmem c (List.mem_cons_self c cs)
    simp only [List.cons_append, containsSub, List.isPrefixOf, hnh c hcd,
      Bool.false_and, Bool.false_or]
    exact ih rest fun x hx => hmem x (List.mem_cons_of_mem c hx)

/-- Lowercasing fixes digit strings. -/
theorem lowerChars_digits (ds : List Char) (hmem : ∀ c ∈ ds, c ∈ digitChars) :
    lowerChars ds = ds := by
  induction ds with
  | nil => rfl
  | cons c cs ih =>
    have hcd : c ∈ digitChars := hmem c (List.mem_cons_self c cs)
    have hlow : ∀ x ∈ digitChars, x.toLower = x := by decide
    simp only [lowerChars, List.map_cons, hlow c hcd]
    have ihr := ih fun x hx => hmem x (List.mem_cons_of_mem c hx)
    simp only [lowerChars] at ihr
    rw [ihr]

/-- A greedy digit run over `ds ++ rest` with digit-free `rest` head is
exactly `ds`. -/
theorem takeWhile_digits (ds : List Char) (hmem : ∀ c ∈ ds, c ∈ digitChars) :
    ∀ (rest : List Char), rest.takeWhile isDigitChar = [] →
      (ds ++ rest).takeWhile isDigitChar = ds := by
  induction ds with
  | nil => intro rest hr; simpa using hr
  | cons c cs ih =>
    intro rest hr
    have hcd : c ∈ digitChars := hmem c (List.mem_cons_self c cs)
    have hdig : ∀ x ∈ digitChars, isDigitChar x = true := by decide
    simp only [List.cons_append, List.takeWhile_cons, hdig c hcd, if_pos]
    rw [ih (fun x hx => hmem x (List.mem_cons_of_mem c hx)) rest hr]

/-- On a pure digit string the number parser is Python `int`. -/
theorem numberFromText_digits (ds : List Char) (hne : ds ≠ [])
    (hmem : ∀ c ∈ ds, c ∈ digitChars) : numberFromText ds = digitsToNat ds := by
  have hOne : ds ≠ "one".data := by
    intro h
    have : 'o' ∈ ds := by rw [h]; decide
    exact absurd (hmem 'o' this) (by decide)
  have hTwo : ds ≠ "two".data := by
    intro h
    have : 't' ∈ ds := by rw [h]; decide
    exact absurd (hmem 't' this) (by decide)
  have hThree : ds ≠ "three".data := by
    intro h
    have : 't' ∈ ds := by rw [h]; decide
    exact absurd (hmem 't' this) (by decide)
  have hAll : (!ds.isEmpty && ds.all isDigitChar) = true := by
    have h1 : ds.isEmpty = false := by cases ds with | nil => exact absurd rfl hne | cons a b => rfl
    have hd : ∀ x ∈ digitChars, isDigitChar x = true := by decide
    have h2 : ds.all isDigitChar = true :=
      List.all_eq_true.mpr fun c hc => hd c (hmem c hc)
    rw [h1, h2]
    rfl
  unfold numberFromText
  rw [if_neg hOne, if_neg hTwo, if_neg hThree, if_pos hAll]

/-- A literal whose first character is not a digit fails at a digit. -/
theorem dropLit_digit_head (s : String) (sh : Char) (st : List Char)
    (hs : s.data = sh :: st) (d : Char) (hd : d ∈ digitChars)
    (hnh : ∀ c ∈ digitChars, (sh == c) = false) (X : List Char) :
    dropLit s (d :: X) = none := by
  unfold dropLit
  rw [hs]
  simp only [List.isPrefixOf, hnh d hd, Bool.false_and, Bool.false_eq_true, if_false]

/-- At the start of a digit run followed by spaces and a unit word, the
number-unit pattern matches the whole run (greedy, leftmost). -/
theorem numberUnitAt_digits (ds : List Char) (hne : ds ≠ [])
    (hmem : ∀ c ∈ ds, c ∈ digitChars) (rest : List Char)
    (hr : rest.takeWhile isDigitChar = [])
    (u rest2 rest3 : List Char)
    (hspace : takeSpaces1 rest = some rest2)
    (hunit : unitAt rest2 = some (u, rest3)) :
    numberUnitAt (ds ++ rest) = some (ds, u) := by
  have hTW : (ds ++ rest).takeWhile isDigitChar = ds := takeWhile_digits ds hmem rest hr
  cases ds with
  | nil => exact absurd rfl hne
  | cons d ds' =>
    have hd : d ∈ digitChars := hmem d (List.mem_cons_self d ds')
    unfold numberUnitAt numCandidates
    simp only [List.cons_append] at hTW ⊢
    rw [dropLit_digit_head "three" 't' _ rfl d hd (by decide),
      dropLit_digit_head "two" 't' _ rfl d hd (by decide),
      dropLit_digit_head "one" 'o' _ rfl d hd (by decide)]
    rw [hTW]
    have hdrop : List.drop (d :: ds').length (d :: (ds' ++ rest)) = rest := by
      rw [← List.cons_append]
      exact List.drop_left _ _
    simp only [Option.map_none', Option.toList_none, List.nil_append, List.length_cons,
      List.range_succ_eq_map, List.map_cons, Nat.sub_zero, List.take_length]
    rw [List.length_cons] at hdrop
    rw [hdrop]
    have htake : List.take (ds'.length + 1) (d :: ds') = d :: ds' := by
      rw [show ds'.length + 1 = (d :: ds').length from rfl]
      exact List.take_length (d :: ds')
    rw [List.findSome?_cons_of_isSome]
    · simp [htake, hspace, hunit]
    · simp [htake, hspace, hunit]

/-- Searching after the literal prefix "after " finds the digit run as
the number and the following unit word. -/
theorem searchNumberUnit_after (ds : List Char) (hne : ds ≠ [])
    (hmem : ∀ c ∈ ds, c ∈ digitChars) (rest : List Char)
    (hr : rest.takeWhile isDigitChar = [])
    (u rest2 rest3 : List Char)
    (hspace : takeSpaces1 rest = some rest2)
    (hunit : unitAt rest2 = some (u, rest3)) :
    searchNumberUnit ('a' :: 'f' :: 't' :: 'e' :: 'r' :: ' ' ::(ds ++ rest)) = some (ds, u) := by
  have h6 : searchNumberUnit ('a' :: 'f' :: 't' :: 'e' :: 'r' :: ' ' ::(ds ++ rest)) =
      searchNumberUnit (ds ++ rest) := rfl
  rw [h6]
  have hNU := numberUnitAt_digits ds hne hmem rest hr u rest2 rest3 hspace hunit
  cases ds with
  | nil => exact absurd rfl hne
  | cons d ds' =>
    simp only [List.cons_append] at hNU ⊢
    simp only [searchNumberUnit, hNU]

/-- Core of claim C9: a matched text of the shape `after` + space +
digits + whitespace-free unit tail dispatches to the future branch of the
normalizer (it contains none of the other lexical cues and starts with
"after "), which resolves it by shifting the reference date forward by
the digit value in days — succeeding exactly when that result is
representable. -/
theorem normalizeDate_after_digits (ref : Date) (ds : List Char) (hne : ds ≠ [])
    (hmem : ∀ c ∈ ds, c ∈ digitChars) (rest : List Char)
    (hrestTW : rest.takeWhile isDigitChar = [])
    (u rest2 rest3 : List Char)
    (hspace : takeSpaces1 rest = some rest2)
    (hunit : unitAt rest2 = some (u, rest3))
    (hu : containsSub u "day".data = true)
    (hlowrest : List.map Char.toLower rest = rest)
    (hN1 : containsSub rest "today".data = false)
    (hN2 : containsSub rest "yesterday".data = false)
    (hN3 : containsSub rest "tomorrow".data = false)
    (hN4 : containsSub rest "for the past".data = false)
    (hN5 : containsSub rest "ago".data = false)
    (hN6 : containsSub rest "prior".data = false)
    (hN7 : containsSub rest "before".data = false)
    (hN8 : containsSub rest "earlier".data = false)
    (hN9 : containsSub rest "from now".data = false)
    (hN10 : containsSub rest "later".data = false) :
    normalizeDate ref (String.mk ('a' :: 'f' :: 't' :: 'e' :: 'r' :: ' ' ::(ds ++ rest))) =
      addDays ref (digitsToNat ds) := by
  have hmap : List.map Char.toLower ds = ds := by
    have := lowerChars_digits ds hmem
    simpa [lowerChars] using this
  have hlowAll : lowerChars ('a' :: 'f' :: 't' :: 'e' :: 'r' :: ' ' ::(ds ++ rest)) =
      'a' :: 'f' :: 't' :: 'e' :: 'r' :: ' ' ::(ds ++ rest) := by
    simp only [lowerChars, List.map_cons, List.map_append, hmap, hlowrest]
    rfl
  have h_today : containsSub ('a' :: 'f' :: 't' :: 'e' :: 'r' :: ' ' ::(ds ++ rest)) "today".data = false := by
    rw [show "today".data = ['t','o','d','a','y'] from rfl]
    simp only [containsSub, List.isPrefixOf]
    rw [containsSub_digits_append 't' _ (by decide) ds _ hmem]
    rw [show ['t','o','d','a','y'] = "today".data from rfl]
    simp [hN1]
  have h_yesterday : containsSub ('a' :: 'f' :: 't' :: 'e' :: 'r' :: ' ' ::(ds ++ rest)) "yesterday".data = false := by
    rw [show "yesterday".data = ['y','e','s','t','e','r','d','a','y'] from rfl]
    simp only [containsSub, List.isPrefixOf]
    rw [containsSub_digits_append 'y' _ (by decide) ds _ hmem]
    rw [show ['y','e','s','t','e','r','d','a','y'] = "yesterday".data from rfl]
    simp [hN2]
  have h_tomorrow : containsSub ('a' :: 'f' :: 't' :: 'e' :: 'r' :: ' ' ::(ds ++ rest)) "tomorrow".data = false := by
    rw [show "tomorrow".data = ['t','o','m','o','r','r','o','w'] from rfl]
    simp only [containsSub, List.isPrefixOf]
    rw [containsSub_digits_append 't' _ (by decide) ds _ hmem]
    rw [show ['t','o','m','o','r','r','o','w'] = "tomorrow".data from rfl]
    simp [hN3]
  have h_forpast : containsSub ('a' :: 'f' :: 't' :: 'e' :: 'r' :: ' ' ::(ds ++ rest)) "for the past".data = false := by
    rw [show "for the past".data = ['f','o','r',' ','t','h','e',' ','p','a','s','t'] from rfl]
    simp only [containsSub, List.isPrefixOf]
    rw [containsSub_digits_append 'f' _ (by decide) ds _ hmem]
    rw [show ['f','o','r',' ','t','h','e',' ','p','a','s','t'] = "for the past".data from rfl]
    simp [hN4]
  have h_ago : containsSub ('a' :: 'f' :: 't' :: 'e' :: 'r' :: ' ' ::(ds ++ rest)) "ago".data = false := by
    rw [show "ago".data = ['a','g','o'] from rfl]
    simp only [containsSub, List.isPrefixOf]
    rw [containsSub_digits_append 'a' _ (by decide) ds _ hmem]
    rw [show ['a','g','o'] = "ago".data from rfl]
    simp [hN5]
  have h_prior : containsSub ('a' :: 'f' :: 't' :: 'e' :: 'r' :: ' ' ::(ds ++ rest)) "prior".data = false := by
    rw [show "prior".data = ['p','r','i','o','r'] from rfl]
    simp only [containsSub, List.isPrefixOf]
    rw [containsSub_digits_append 'p' _ (by decide) ds _ hmem]
    rw [show ['p','r','i','o','r'] = "prior".data from rfl]
    simp [hN6]
  have h_before : containsSub ('a' :: 'f' :: 't' :: 'e' :: 'r' :: ' ' ::(ds ++ rest)) "before".data = false := by
    rw [show "before".data = ['b','e','f','o','r','e'] from rfl]
    simp only [containsSub, List.isPrefixOf]
    rw [containsSub_digits_append 'b' _ (by decide) ds _ hmem]
    rw [show ['b','e','f','o','r','e'] = "before".data from rfl]
    simp [hN7]
  have h_earlier : containsSub ('a' :: 'f' :: 't' :: 'e' :: 'r' :: ' ' ::(ds ++ rest)) "earlier".data = false := by
    rw [show "earlier".data = ['e','a','r','l','i','e','r'] from rfl]
    simp only [containsSub, List.isPrefixOf]
    rw [containsSub_digits_append 'e' _ (by decide) ds _ hmem]
    rw [show ['e','a','r','l','i','e','r'] = "earlier".data from rfl]
    simp [hN8]
  have h_fromnow : containsSub ('a' :: 'f' :: 't' :: 'e' :: 'r' :: ' ' ::(ds ++ rest)) "from now".data = false := by
    rw [show "from now".data = ['f','r','o','m',' ','n','o','w'] from rfl]
    simp only [containsSub, List.isPrefixOf]
    rw [containsSub_digits_append 'f' _ (by decide) ds _ hmem]
    rw [show ['f','r','o','m',' ','n','o','w'] = "from now".data from rfl]
    simp [hN9]
  have h_later : containsSub ('a' :: 'f' :: 't' :: 'e' :: 'r' :: ' ' ::(ds ++ rest)) "later".data = false := by
    rw [show "later".data = ['l','a','t','e','r'] from rfl]
    simp only [containsSub, List.isPrefixOf]
    rw [containsSub_digits_append 'l' _ (by decide) ds _ hmem]
    rw [show ['l','a','t','e','r'] = "later".data from rfl]
    simp [hN10]
  have h_inpre : "in ".data.isPrefixOf ('a' :: 'f' :: 't' :: 'e' :: 'r' :: ' ' ::(ds ++ rest)) = false := by
    rw [show "in ".data = ['i', 'n', ' '] from rfl]
    simp [List.isPrefixOf]
  have h_afterpre : "after ".data.isPrefixOf ('a' :: 'f' :: 't' :: 'e' :: 'r' :: ' ' ::(ds ++ rest)) = true := by
    rw [show "after ".data = ['a', 'f', 't', 'e', 'r', ' '] from rfl]
    simp [List.isPrefixOf]
  simp only [normalizeDate,
    show (String.mk ('a' :: 'f' :: 't' :: 'e' :: 'r' :: ' ' ::(ds ++ rest))).data =
      'a' :: 'f' :: 't' :: 'e' :: 'r' :: ' ' ::(ds ++ rest) from rfl,
    hlowAll, h_today, h_yesterday, h_tomorrow, h_forpast, h_ago, h_prior, h_before,
    h_earlier, h_fromnow, h_later, h_inpre, h_afterpre, Bool.false_eq_true,
    Bool.false_or, Bool.or_false, if_false, if_true]
  simp only [parseRelativeFuture,
    show (String.mk ('a' :: 'f' :: 't' :: 'e' :: 'r' :: ' ' ::(ds ++ rest))).data =
      'a' :: 'f' :: 't' :: 'e' :: 'r' :: ' ' ::(ds ++ rest) from rfl,
    hlowAll,
    searchNumberUnit_after ds hne hmem rest hrestTW u rest2 rest3 hspace hunit,
    hu, if_true]
  rw [numberFromText_digits ds hne hmem]

/-- Claim C9, amended to `datetime`'s range: every matched expression of
the literal form "after N days" (or "after N day"), with N a decimal
numeral, is normalized via the future branch: its resolution is exactly
the reference date shifted forward by N days, yielding that date whenever
it is representable (0001-01-01 .. 9999-12-31) and no date otherwise (the
`OverflowError` is caught and the match dropped), regardless of the
narrative around it. -/
theorem afterNDays_uses_future_branch (ref : Date) (ds : List Char) (plural : Bool)
    (hne : ds ≠ []) (hds : ds.all (fun c => digitChars.contains c) = true) :
    normalizeDate ref
        (String.mk ("after ".data ++ ds ++ " day".data ++ (if plural then ['s'] else []))) =
      addDays ref (digitsToNat ds) := by
  have hmem : ∀ c ∈ ds, c ∈ digitChars := fun c hc =>
    List.mem_of_elem_eq_true (List.all_eq_true.mp hds c hc)
  cases plural
  · have hL : "after ".data ++ ds ++ " day".data ++
        (if (false : Bool) then ['s'] else []) =
        'a' :: 'f' :: 't' :: 'e' :: 'r' :: ' ' ::(ds ++ [' ', 'd', 'a', 'y']) := by
      rw [show "after ".data = ['a', 'f', 't', 'e', 'r', ' '] from rfl,
        show " day".data = [' ', 'd', 'a', 'y'] from rfl]
      simp [List.append_assoc]
    rw [hL]
    exact normalizeDate_after_digits ref ds hne hmem [' ', 'd', 'a', 'y'] (by decide)
      ['d', 'a', 'y'] ['d', 'a', 'y'] [] (by decide) (by decide) (by decide) (by decide)
      (by decide) (by decide) (by decide) (by decide) (by decide) (by decide) (by decide)
      (by decide) (by decide) (by decide)
  · have hL : "after ".data ++ ds ++ " day".data ++
        (if (true : Bool) then ['s'] else []) =
        'a' :: 'f' :: 't' :: 'e' :: 'r' :: ' ' ::(ds ++ [' ', 'd', 'a', 'y', 's']) := by
      rw [show "after ".data = ['a', 'f', 't', 'e', 'r', ' '] from rfl,
        show " day".data = [' ', 'd', 'a', 'y'] from rfl]
      simp [List.append_assoc]
    rw [hL]
    exact normalizeDate_after_digits ref ds hne hmem [' ', 'd', 'a', 'y', 's'] (by decide)
      ['d', 'a', 'y', 's'] ['d', 'a', 'y', 's'] [] (by decide) (by decide) (by decide)
      (by decide) (by decide) (by decide) (by decide) (by decide) (by decide) (by decide)
      (by decide) (by decide) (by decide) (by decide)

/-- Witness for claim C9 at the concrete numeral 5 with plural unit. -/
theorem afterNDays_uses_future_branch_witness :
    (("5".data ≠ []) ∧ ("5".data.all (fun c => digitChars.contains c) = true)) ∧
    normalizeDate referenceDate
        (String.mk ("after ".data ++ "5".data ++ " day".data ++
          (if (true : Bool) then ['s'] else []))) =
      addDays referenceDate (digitsToNat "5".data) :=
  ⟨⟨by decide, by decide⟩,
    afterNDays_uses_future_branch referenceDate "5".data true (by decide) (by decide)⟩

/-- Claim C9 as stated is false for numerals that push the shifted date
past 9999-12-31: "after 3000000 days" is matched by the dedicated
after-N-days pattern, yet `reference + 3000000 days` raises
`OverflowError`, the handler returns `None`, and normalization yields no
date at all instead of the claimed reference-plus-N resolution. -/
theorem afterNDays_overflow_counterexample :
    findMatches (relativePatterns.getD 4 RE.wb) "recovered after 3000000 days" =
      ["after 3000000 days"] ∧
    normalizeDate referenceDate "after 3000000 days" = none :=
  ⟨by decide, by decide⟩

/-- Claim C10 as stated is false: an occurrence of "after N days" that is
not delimited by word boundaries matches neither relative pattern, so the
extractor emits no Event at all for it — here the sentence
"daysafter 5 days" contains the substring "after 5 days" yet produces an
empty event list (it also has no medical indicator). -/
theorem afterNDays_without_boundary_counterexample :
    containsSub "daysafter 5 days".data "after 5 days".data = true ∧
    extractDatesAndEvents referenceDate "daysafter 5 days" = [] :=
  ⟨by decide, by decide⟩

/-- Claim C10, amended: when "after N days" occurs at word boundaries —
as in the sentence "The fever subsided after 5 days" — the occurrence is
matched by both the in-after relative pattern and the dedicated
after-N-days pattern, and, for every reference date whose forward shift
by 5 days is representable (otherwise the `OverflowError` is caught and
both matches are dropped), the extractor emits two Events identical in
every field (original text, date text, resolved date = reference + N
days, description, category, confidence medium); embedded in a word (see
the counterexample) it yields none. -/
theorem afterNDays_duplicate_pair (ref : Date) (d : Date)
    (h : addDays ref 5 = some d) :
    findMatches (relativePatterns.getD 2 RE.wb) "The fever subsided after 5 days" =
      ["after 5 days"] ∧
    findMatches (relativePatterns.getD 4 RE.wb) "The fever subsided after 5 days" =
      ["after 5 days"] ∧
    extractDatesAndEvents ref "The fever subsided after 5 days" =
      [{ original_text := "The fever subsided after 5 days",
         date := some d, date_text := "after 5 days",
         event_description := "The fever subsided",
         category := "Disease Onset/Progression", confidence := "medium" },
       { original_text := "The fever subsided after 5 days",
         date := some d, date_text := "after 5 days",
         event_description := "The fever subsided",
         category := "Disease Onset/Progression", confidence := "medium" }] := by
  refine ⟨rfl, rfl, ?_⟩
  have hnorm : normalizeDate ref "after 5 days" = some d := by
    rw [show normalizeDate ref "after 5 days" = addDays ref 5 from rfl]
    exact h
  have hraw : rawPatternMatches "The fever subsided after 5 days" =
      [("after 5 days", "medium"), ("after 5 days", "medium")] := rfl
  have hext : extractDatesFromSentence ref "The fever subsided after 5 days" =
      [{ original_text := "after 5 days", normalized_date := d, confidence := "medium" },
       { original_text := "after 5 days", normalized_date := d, confidence := "medium" }] := by
    rw [extractDates_filterMap, hraw]
    simp only [List.filterMap_cons, List.filterMap_nil, hnorm, Option.map_some']
  have hsplit : splitSentences "The fever subsided after 5 days" =
      ["The fever subsided after 5 days"] := rfl
  unfold extractDatesAndEvents
  rw [hsplit]
  simp only [List.flatMap_cons, List.flatMap_nil, List.append_nil]
  unfold processSentence
  rw [hext]
  rfl

/-- Witness for claim C10 at the reference date 2025-08-22, whose forward
shift by 5 days is 2025-08-27. -/
theorem afterNDays_duplicate_pair_witness :
    addDays referenceDate 5 = some ⟨2025, 8, 27⟩ ∧
    (findMatches (relativePatterns.getD 2 RE.wb) "The fever subsided after 5 days" =
        ["after 5 days"] ∧
      findMatches (relativePatterns.getD 4 RE.wb) "The fever subsided after 5 days" =
        ["after 5 days"] ∧
      extractDatesAndEvents referenceDate "The fever subsided after 5 days" =
        [{ original_text := "The fever subsided after 5 days",
           date := some ⟨2025, 8, 27⟩, date_text := "after 5 days",
           event_description := "The fever subsided",
           category := "Disease Onset/Progression", confidence := "medium" },
         { original_text := "The fever subsided after 5 days",
           date := some ⟨2025, 8, 27⟩, date_text := "after 5 days",
           event_description := "The fever subsided",
           category := "Disease Onset/Progression", confidence := "medium" }]) :=
  ⟨by decide, afterNDays_duplicate_pair referenceDate ⟨2025, 8, 27⟩ (by decide)⟩

end MedTimeline
